import Mathlib

/-!
Verification of the `fake_user_agent` repository: a shallow embedding, in
Lean 4, of the cache-refresh and fallback-selection pipeline implemented by
`user_agent.py` (the asynchronous, lenient selector) and
`fake_useragent/utils.py` (the older, strict selector), together with
theorems settling the specification claims about them.

Modelling conventions:
* Python strings are Lean `String`s; file contents are `String`s.
* The filesystem is a record of a partial map from paths to contents plus a
  set of existing directories; stateful functions pass it explicitly and
  also return a trace of filesystem events.
* Network and HTML extraction are black boxes (as the specification itself
  declares): each embedding takes an environment record whose fields give
  the per-attempt outcomes of the HTTP requests and the list of raw text
  matches the HTML extraction step yields for a fetched page.
* `json.dumps` / `json.loads` (Python standard library) are modelled by an
  executable codec, `PyJson`, specialised to the two record shapes the
  repository serializes; the codec reproduces `json.dumps`'s default
  `ensure_ascii=True` output (shorthand escapes, lowercase `\uXXXX`,
  UTF-16 surrogate pairs for astral characters) and its parser accepts the
  corresponding `json.loads` string grammar.  The round-trip law is proved.
* Randomness is modelled by passing the drawn values explicitly: a rational
  in `[0,1)` for `random.random()`-based draws and a natural number index
  (reduced modulo the list length) for `random.choice`.
* `sys.exit(1)` and uncaught exceptions are modelled as explicit error
  outcomes carrying the process exit status.
-/

/-! # Part 1: Python-level helpers -/

/-- Python `"needle" in hay` on lists of characters: `needle` occurs as a
contiguous subsequence of `hay`. -/
def pyLeads : List Char → List Char → Bool
  | [], _ => true
  | _ :: _, [] => false
  | a :: as, b :: bs => a = b && pyLeads as bs

/-- Sliding occurrence test used to model Python's `in` operator on strings. -/
def pyInChars (needle : List Char) : List Char → Bool
  | [] => needle.isEmpty
  | c :: rest => pyLeads needle (c :: rest) || pyInChars needle rest

/-- Python `needle in hay` for strings. -/
def pyIn (needle hay : String) : Bool := pyInChars needle.data hay.data

/-- Python `str.isspace`-style whitespace (the characters `str.strip()`
removes). -/
def pySpace (c : Char) : Bool :=
  c = ' ' || c = Char.ofNat 9 || c = Char.ofNat 10 || c = Char.ofNat 11 ||
    c = Char.ofNat 12 || c = Char.ofNat 13

/-- Python `str.strip()`: drop leading and trailing whitespace. -/
def pyStrip (s : String) : String :=
  String.mk (((s.data.dropWhile pySpace).reverse.dropWhile pySpace).reverse)

/-- Python `str.lower()` (the repository only lowercases ASCII browser
names, so ASCII lowering is faithful here). -/
def pyLower (s : String) : String := String.mk (s.data.map Char.toLower)

/-- Python `random.choice(seq)`: pick the element at the drawn index; on an
empty sequence `random.choice` raises `IndexError`, modelled by `none`.
The draw `r` is an arbitrary natural, reduced modulo the length, so every
index is reachable. -/
def pyChoice {α : Type} (l : List α) (r : Nat) : Option α :=
  match l with
  | [] => none
  | x :: xs => some ((x :: xs).getD (r % (x :: xs).length) x)

/-- `posixpath.dirname`: everything before the final slash, with trailing
slashes stripped from the head unless the head is all slashes. -/
def pyDirname (p : String) : String :=
  let parts := p.data
  let i := parts.length - (parts.reverse.takeWhile (fun c => c ≠ '/')).length
  let head := parts.take i
  if head.all (fun c => c = '/') then String.mk head
  else String.mk (head.reverse.dropWhile (fun c => c = '/')).reverse

/-! # Part 2: filesystem model -/

/-- A filesystem: file contents by path, existing directories, and a
writability oracle standing for the I/O errors `open(..., "wt")`,
`os.makedirs` and `os.remove` can raise. -/
structure FS where
  files : String → Option String
  dirs : String → Bool
  writeOk : String → Bool

/-- Observable filesystem events, used to count cache writes and reads. -/
inductive FsEv where
  | wrote (path : String)
  | readFile (path : String)
deriving DecidableEq, Repr

/-- Store `content` at `path`. -/
def FS.put (fs : FS) (path content : String) : FS :=
  { fs with files := fun p => if p = path then some content else fs.files p }

/-- Delete the file at `path`. -/
def FS.del (fs : FS) (path : String) : FS :=
  { fs with files := fun p => if p = path then none else fs.files p }

/-! # Part 3: the JSON codec (`json.dumps` / `json.loads`)

The repository serializes exactly two shapes: a browser catalog
(`user_agent.py`: a string-keyed object of arrays of strings) and the
strict selector's cache record (`fake_useragent/utils.py`: an object with
a `browsers` catalog and a string-valued `randomize` object).  The codec
below reproduces `json.dumps`'s default output for those shapes and
parses the corresponding `json.loads` grammar (with inter-token
whitespace, escape forms, and surrogate-pair recombination); inputs
outside that grammar are rejected, matching the `JSONDecodeError` those
inputs raise in Python.  Lone surrogate escapes, legal in CPython but not
representable by Lean `Char`, are also rejected; no claim depends on
them. -/

namespace PyJson

/-- Lowercase hexadecimal digit character of `n < 16` (CPython's
`\uXXXX` escapes are lowercase). -/
def hexDig (n : Nat) : Char :=
  if n < 10 then Char.ofNat (48 + n) else Char.ofNat (87 + n)

/-- Value of one hexadecimal digit character (either case accepted, as by
`json.loads`). -/
def hexValOf (c : Char) : Option Nat :=
  if 48 ≤ c.toNat ∧ c.toNat ≤ 57 then some (c.toNat - 48)
  else if 97 ≤ c.toNat ∧ c.toNat ≤ 102 then some (c.toNat - 87)
  else if 65 ≤ c.toNat ∧ c.toNat ≤ 70 then some (c.toNat - 55)
  else none

/-- Value of a four-digit hexadecimal escape body. -/
def hexQuad (a b c d : Char) : Option Nat :=
  match hexValOf a, hexValOf b, hexValOf c, hexValOf d with
  | some x, some y, some z, some w => some (x * 4096 + y * 256 + z * 16 + w)
  | _, _, _, _ => none

/-- The six characters of a `\uXXXX` escape for code unit `n < 65536`. -/
def uEsc (n : Nat) : List Char :=
  ['\\', 'u', hexDig (n / 4096 % 16), hexDig (n / 256 % 16),
    hexDig (n / 16 % 16), hexDig (n % 16)]

/-- `json.dumps` (default `ensure_ascii=True`) encoding of one character:
shorthand escapes for the two delimiters and the five named controls,
`\uXXXX` for the remaining controls and for everything outside printable
ASCII, and a UTF-16 surrogate pair for astral code points. -/
def escChar (c : Char) : List Char :=
  if c = '"' then ['\\', '"']
  else if c = '\\' then ['\\', '\\']
  else if c = Char.ofNat 8 then ['\\', 'b']
  else if c = Char.ofNat 9 then ['\\', 't']
  else if c = Char.ofNat 10 then ['\\', 'n']
  else if c = Char.ofNat 12 then ['\\', 'f']
  else if c = Char.ofNat 13 then ['\\', 'r']
  else if c.toNat < 32 then uEsc c.toNat
  else if c.toNat < 127 then [c]
  else if c.toNat < 65536 then uEsc c.toNat
  else uEsc (55296 + (c.toNat - 65536) / 1024) ++
    uEsc (56320 + (c.toNat - 65536) % 1024)

/-- `json.dumps` of a string, quotes included. -/
def dumpsStr (s : String) : List Char := '"' :: (s.data.flatMap escChar ++ ['"'])

mutual

/-- `json.loads` string-body scanner (input begins after the opening
quote; `acc` holds the decoded characters in reverse).  Raw control
characters are rejected as in CPython's default `strict=True`. -/
def loadsStrAux (acc : List Char) : List Char → Option (String × List Char)
  | [] => none
  | c :: rest =>
    if c = '"' then some (String.mk acc.reverse, rest)
    else if c = '\\' then loadsEsc acc rest
    else if c.toNat < 32 then none
    else loadsStrAux (c :: acc) rest
termination_by l => l.length
decreasing_by all_goals (simp_wf <;> omega)

/-- Decode the escape after a backslash. -/
def loadsEsc (acc : List Char) : List Char → Option (String × List Char)
  | [] => none
  | e :: rest =>
    if e = 'u' then loadsUEsc acc rest
    else if e = '"' then loadsStrAux ('"' :: acc) rest
    else if e = '\\' then loadsStrAux ('\\' :: acc) rest
    else if e = '/' then loadsStrAux ('/' :: acc) rest
    else if e = 'b' then loadsStrAux (Char.ofNat 8 :: acc) rest
    else if e = 'f' then loadsStrAux (Char.ofNat 12 :: acc) rest
    else if e = 'n' then loadsStrAux (Char.ofNat 10 :: acc) rest
    else if e = 'r' then loadsStrAux (Char.ofNat 13 :: acc) rest
    else if e = 't' then loadsStrAux (Char.ofNat 9 :: acc) rest
    else none
termination_by l => l.length
decreasing_by all_goals (simp_wf <;> omega)

/-- Decode the four hex digits of a `\uXXXX` escape; a high surrogate
must be followed by a low one (recombined to the astral code point). -/
def loadsUEsc (acc : List Char) : List Char → Option (String × List Char)
  | a :: b :: c1 :: d :: rest =>
    match hexQuad a b c1 d with
    | none => none
    | some n =>
      if 55296 ≤ n ∧ n < 56320 then loadsLowSurr acc n rest
      else if 56320 ≤ n ∧ n < 57344 then none
      else loadsStrAux (Char.ofNat n :: acc) rest
  | _ => none
termination_by l => l.length
decreasing_by all_goals (simp_wf <;> omega)

/-- Decode the low-surrogate escape completing an astral code point whose
high surrogate had value `n`. -/
def loadsLowSurr (acc : List Char) (n : Nat) :
    List Char → Option (String × List Char)
  | x :: y :: a2 :: b2 :: c2 :: d2 :: rest =>
    if x = '\\' ∧ y = 'u' then
      match hexQuad a2 b2 c2 d2 with
      | none => none
      | some m =>
        if 56320 ≤ m ∧ m < 57344 then
          loadsStrAux
            (Char.ofNat (65536 + (n - 55296) * 1024 + (m - 56320)) :: acc)
            rest
        else none
    else none
  | _ => none
termination_by l => l.length
decreasing_by all_goals (simp_wf <;> omega)

end

/-- `json.loads` of a string token (opening quote expected first). -/
def loadsStr : List Char → Option (String × List Char)
  | [] => none
  | c :: rest => if c = '"' then loadsStrAux [] rest else none

/-- The JSON inter-token whitespace characters. -/
def jsonWs (c : Char) : Bool :=
  c = ' ' || c = Char.ofNat 9 || c = Char.ofNat 10 || c = Char.ofNat 13

/-- Skip inter-token whitespace. -/
def dropWs : List Char → List Char
  | c :: cs => if jsonWs c then dropWs cs else c :: cs
  | [] => []

theorem dropWs_length : ∀ l : List Char, (dropWs l).length ≤ l.length
  | [] => Nat.le_refl _
  | c :: cs => by
    rw [dropWs]
    split
    · exact Nat.le_trans (dropWs_length cs) (Nat.le_succ _)
    · exact Nat.le_refl _


theorem loadsStrAux_nil (acc : List Char) : loadsStrAux acc [] = none := by
  rw [loadsStrAux.eq_def]

theorem loadsStrAux_cons (acc : List Char) (c : Char) (rest : List Char) :
    loadsStrAux acc (c :: rest) =
      if c = '"' then some (String.mk acc.reverse, rest)
      else if c = '\\' then loadsEsc acc rest
      else if c.toNat < 32 then none
      else loadsStrAux (c :: acc) rest := by
  rw [loadsStrAux.eq_def]

theorem loadsEsc_nil (acc : List Char) : loadsEsc acc [] = none := by
  rw [loadsEsc.eq_def]

theorem loadsEsc_cons (acc : List Char) (e : Char) (rest : List Char) :
    loadsEsc acc (e :: rest) =
      if e = 'u' then loadsUEsc acc rest
      else if e = '"' then loadsStrAux ('"' :: acc) rest
      else if e = '\\' then loadsStrAux ('\\' :: acc) rest
      else if e = '/' then loadsStrAux ('/' :: acc) rest
      else if e = 'b' then loadsStrAux (Char.ofNat 8 :: acc) rest
      else if e = 'f' then loadsStrAux (Char.ofNat 12 :: acc) rest
      else if e = 'n' then loadsStrAux (Char.ofNat 10 :: acc) rest
      else if e = 'r' then loadsStrAux (Char.ofNat 13 :: acc) rest
      else if e = 't' then loadsStrAux (Char.ofNat 9 :: acc) rest
      else none := by
  rw [loadsEsc.eq_def]

theorem loadsUEsc_cons4 (acc : List Char) (a b c1 d : Char) (rest : List Char) :
    loadsUEsc acc (a :: b :: c1 :: d :: rest) =
      match hexQuad a b c1 d with
      | none => none
      | some n =>
        if 55296 ≤ n ∧ n < 56320 then loadsLowSurr acc n rest
        else if 56320 ≤ n ∧ n < 57344 then none
        else loadsStrAux (Char.ofNat n :: acc) rest := by
  rw [loadsUEsc.eq_def]

theorem loadsLowSurr_cons6 (acc : List Char) (n : Nat)
    (x y a2 b2 c2 d2 : Char) (rest : List Char) :
    loadsLowSurr acc n (x :: y :: a2 :: b2 :: c2 :: d2 :: rest) =
      if x = '\\' ∧ y = 'u' then
        match hexQuad a2 b2 c2 d2 with
        | none => none
        | some m =>
          if 56320 ≤ m ∧ m < 57344 then
            loadsStrAux
              (Char.ofNat (65536 + (n - 55296) * 1024 + (m - 56320)) :: acc)
              rest
          else none
      else none := by
  rw [loadsLowSurr.eq_def]

theorem loads_length_core :
    ∀ (N : Nat) (acc l : List Char) (s : String) (r : List Char), l.length ≤ N →
      (loadsStrAux acc l = some (s, r) → r.length ≤ l.length) ∧
      (loadsEsc acc l = some (s, r) → r.length ≤ l.length) ∧
      (loadsUEsc acc l = some (s, r) → r.length ≤ l.length) ∧
      (∀ n, loadsLowSurr acc n l = some (s, r) → r.length ≤ l.length) := by
  intro N
  induction N with
  | zero =>
    intro acc l s r hl
    have hnil : l = [] := List.eq_nil_of_length_eq_zero (Nat.le_zero.mp hl)
    subst hnil
    refine ⟨?_, ?_, ?_, ?_⟩
    · intro h
      rw [loadsStrAux_nil] at h
      simp at h
    · intro h
      rw [loadsEsc_nil] at h
      simp at h
    · intro h
      rw [loadsUEsc.eq_def] at h
      simp at h
    · intro n h
      rw [loadsLowSurr.eq_def] at h
      simp at h
  | succ N ih =>
    intro acc l s r hl
    refine ⟨?_, ?_, ?_, ?_⟩
    · intro h
      match l, hl, h with
      | [], hl, h => rw [loadsStrAux_nil] at h ; simp at h
      | c :: rest, hl, h =>
        rw [loadsStrAux_cons] at h
        simp only [List.length_cons] at hl ⊢
        split_ifs at h
        · simp only [Option.some.injEq, Prod.mk.injEq] at h
          obtain ⟨-, rfl⟩ := h
          omega
        · have := (ih acc rest s r (by omega)).2.1 h
          omega
        · have := (ih (c :: acc) rest s r (by omega)).1 h
          omega
    · intro h
      match l, hl, h with
      | [], hl, h => rw [loadsEsc_nil] at h ; simp at h
      | e :: rest, hl, h =>
        rw [loadsEsc_cons] at h
        simp only [List.length_cons] at hl ⊢
        split_ifs at h
        · have := (ih acc rest s r (by omega)).2.2.1 h
          omega
        · have := (ih _ rest s r (by omega)).1 h
          omega
        · have := (ih _ rest s r (by omega)).1 h
          omega
        · have := (ih _ rest s r (by omega)).1 h
          omega
        · have := (ih _ rest s r (by omega)).1 h
          omega
        · have := (ih _ rest s r (by omega)).1 h
          omega
        · have := (ih _ rest s r (by omega)).1 h
          omega
        · have := (ih _ rest s r (by omega)).1 h
          omega
        · have := (ih _ rest s r (by omega)).1 h
          omega
    · intro h
      match l, hl, h with
      | [], hl, h => rw [loadsUEsc.eq_def] at h ; simp at h
      | [a], hl, h => rw [loadsUEsc.eq_def] at h ; simp at h
      | [a, b], hl, h => rw [loadsUEsc.eq_def] at h ; simp at h
      | [a, b, c1], hl, h => rw [loadsUEsc.eq_def] at h ; simp at h
      | a :: b :: c1 :: d :: rest, hl, h =>
        rw [loadsUEsc_cons4] at h
        simp only [List.length_cons] at hl ⊢
        split at h
        · simp at h
        · rename_i n heq
          split_ifs at h
          · have := (ih acc rest s r (by omega)).2.2.2 n h
            omega
          · have := (ih _ rest s r (by omega)).1 h
            omega
    · intro n h
      match l, hl, h with
      | [], hl, h => rw [loadsLowSurr.eq_def] at h ; simp at h
      | [x], hl, h => rw [loadsLowSurr.eq_def] at h ; simp at h
      | [x, y], hl, h => rw [loadsLowSurr.eq_def] at h ; simp at h
      | [x, y, a2], hl, h => rw [loadsLowSurr.eq_def] at h ; simp at h
      | [x, y, a2, b2], hl, h => rw [loadsLowSurr.eq_def] at h ; simp at h
      | [x, y, a2, b2, c2], hl, h => rw [loadsLowSurr.eq_def] at h ; simp at h
      | x :: y :: a2 :: b2 :: c2 :: d2 :: rest, hl, h =>
        rw [loadsLowSurr_cons6] at h
        simp only [List.length_cons] at hl ⊢
        split_ifs at h
        split at h
        · simp at h
        · rename_i m heq
          split_ifs at h
          have := (ih _ rest s r (by omega)).1 h
          omega

theorem loadsStrAux_length (acc l : List Char) (s : String) (r : List Char)
    (h : loadsStrAux acc l = some (s, r)) : r.length ≤ l.length :=
  (loads_length_core l.length acc l s r (Nat.le_refl _)).1 h

theorem loadsStr_length (l : List Char) (s : String) (r : List Char)
    (h : loadsStr l = some (s, r)) : r.length < l.length := by
  rw [loadsStr.eq_def] at h
  split at h
  · simp at h
  · rename_i c rest
    split_ifs at h
    have := loadsStrAux_length [] rest s r h
    simp only [List.length_cons]
    omega

theorem dropWs_cons_not (c : Char) (l : List Char) (h : jsonWs c = false) :
    dropWs (c :: l) = c :: l := by
  rw [dropWs]
  simp [h]

theorem dropWs_cons_ws (c : Char) (l : List Char) (h : jsonWs c = true) :
    dropWs (c :: l) = dropWs l := by
  rw [dropWs]
  simp [h]

theorem hexValOf_hexDig (n : Nat) (h : n < 16) :
    hexValOf (hexDig n) = some n := by
  interval_cases n <;> decide

theorem hexQuad_quad (n : Nat) (h : n < 65536) :
    hexQuad (hexDig (n / 4096 % 16)) (hexDig (n / 256 % 16))
      (hexDig (n / 16 % 16)) (hexDig (n % 16)) = some n := by
  have h16 : ∀ k : Nat, k % 16 < 16 := fun k => Nat.mod_lt _ (by omega)
  rw [hexQuad, hexValOf_hexDig _ (h16 _), hexValOf_hexDig _ (h16 _),
    hexValOf_hexDig _ (h16 _), hexValOf_hexDig _ (h16 _)]
  simp only [Option.some.injEq]
  omega

/-- Validity bounds of a Lean `Char`: its code point is a Unicode scalar
value, so never a surrogate and below `0x110000`. -/
theorem char_scalar (c : Char) :
    c.toNat < 55296 ∨ (57344 ≤ c.toNat ∧ c.toNat < 1114112) := by
  have hv := c.valid
  rcases hv with hv | hv
  · left
    exact_mod_cast hv
  · right
    exact ⟨by exact_mod_cast hv.1, by exact_mod_cast hv.2⟩

/-- Scanning one `json.dumps`-escaped character undoes the escaping. -/
theorem loadsStrAux_escChar (c : Char) (acc rest : List Char) :
    loadsStrAux acc (escChar c ++ rest) = loadsStrAux (c :: acc) rest := by
  have hval := char_scalar c
  by_cases h1 : c = '"'
  · subst h1
    rw [escChar]
    norm_num
    simp [loadsStrAux_cons, loadsEsc_cons]
  by_cases h2 : c = '\\'
  · subst h2
    rw [escChar]
    norm_num
    simp [loadsStrAux_cons, loadsEsc_cons]
  by_cases h3 : c = Char.ofNat 8
  · subst h3
    rw [escChar]
    norm_num
    simp [loadsStrAux_cons, loadsEsc_cons]
  by_cases h4 : c = Char.ofNat 9
  · subst h4
    rw [escChar]
    norm_num
    simp [loadsStrAux_cons, loadsEsc_cons]
  by_cases h5 : c = Char.ofNat 10
  · subst h5
    rw [escChar]
    norm_num
    simp [loadsStrAux_cons, loadsEsc_cons]
  by_cases h6 : c = Char.ofNat 12
  · subst h6
    rw [escChar]
    norm_num
    simp [loadsStrAux_cons, loadsEsc_cons]
  by_cases h7 : c = Char.ofNat 13
  · subst h7
    rw [escChar]
    norm_num
    simp [loadsStrAux_cons, loadsEsc_cons]
  rw [escChar, if_neg h1, if_neg h2, if_neg h3, if_neg h4, if_neg h5,
    if_neg h6, if_neg h7]
  by_cases h8 : c.toNat < 32
  · rw [if_pos h8]
    have hq := hexQuad_quad c.toNat (by omega)
    have hs1 : ¬(55296 ≤ c.toNat ∧ c.toNat < 56320) := by omega
    have hs2 : ¬(56320 ≤ c.toNat ∧ c.toNat < 57344) := by omega
    simp [uEsc, loadsStrAux_cons, loadsEsc_cons, loadsUEsc_cons4, hq, hs1,
      hs2, Char.ofNat_toNat]
  rw [if_neg h8]
  by_cases h9 : c.toNat < 127
  · rw [if_pos h9, List.singleton_append, loadsStrAux_cons, if_neg h1,
      if_neg h2, if_neg h8]
  rw [if_neg h9]
  by_cases h10 : c.toNat < 65536
  · rw [if_pos h10]
    have hq := hexQuad_quad c.toNat (by omega)
    have hs1 : ¬(55296 ≤ c.toNat ∧ c.toNat < 56320) := by
      rcases hval with h | h <;> omega
    have hs2 : ¬(56320 ≤ c.toNat ∧ c.toNat < 57344) := by
      rcases hval with h | h <;> omega
    simp [uEsc, loadsStrAux_cons, loadsEsc_cons, loadsUEsc_cons4, hq, hs1,
      hs2, Char.ofNat_toNat]
  rw [if_neg h10]

  have hcv : c.toNat < 1114112 := by rcases hval with h | h <;> omega
  have hge : 65536 ≤ c.toNat := by omega
  have hq1 := hexQuad_quad (55296 + (c.toNat - 65536) / 1024) (by omega)
  have hq2 := hexQuad_quad (56320 + (c.toNat - 65536) % 1024) (by omega)
  have ht1 : 55296 ≤ 55296 + (c.toNat - 65536) / 1024 ∧
      55296 + (c.toNat - 65536) / 1024 < 56320 := by omega
  have ht2 : 56320 ≤ 56320 + (c.toNat - 65536) % 1024 ∧
      56320 + (c.toNat - 65536) % 1024 < 57344 := by omega
  have harith : 65536 + (55296 + (c.toNat - 65536) / 1024 - 55296) * 1024 +
      (56320 + (c.toNat - 65536) % 1024 - 56320) = c.toNat := by omega
  simp [uEsc, loadsStrAux_cons, loadsEsc_cons, loadsUEsc_cons4,
    loadsLowSurr_cons6, hq1, hq2, ht1, ht2, harith, Char.ofNat_toNat]
  have harith2 : 65536 + (c.toNat - 65536) / 1024 * 1024 +
      (c.toNat - 65536) % 1024 = c.toNat := by omega
  rw [harith2, Char.ofNat_toNat]

theorem string_mk_data (s : String) : String.mk s.data = s := rfl

theorem loadsStrAux_flat (s : List Char) :
    ∀ (acc rest : List Char),
      loadsStrAux acc (s.flatMap escChar ++ '"' :: rest) =
        some (String.mk (acc.reverse ++ s), rest) := by
  induction s with
  | nil =>
    intro acc rest
    simp [loadsStrAux_cons]
  | cons c cs ih =>
    intro acc rest
    rw [List.flatMap_cons, List.append_assoc, loadsStrAux_escChar, ih]
    simp

/-- The string codec round-trip: `json.loads` undoes `json.dumps` on any
string token, leaving the rest of the input untouched. -/
theorem loadsStr_dumpsStr (v : String) (rest : List Char) :
    loadsStr (dumpsStr v ++ rest) = some (v, rest) := by
  rw [dumpsStr, List.cons_append, loadsStr]
  simp only [if_pos rfl, List.append_assoc, List.singleton_append]
  rw [loadsStrAux_flat]
  simp [string_mk_data]

/-- `json.dumps` of an array of strings (default item separator `", "`). -/
def dumpsArr (vs : List String) : List Char :=
  match vs with
  | [] => ['[', ']']
  | v :: tl =>
    '[' :: (dumpsStr v ++ tl.flatMap (fun w => ',' :: ' ' :: dumpsStr w) ++ [']'])

/-- `json.loads` array tail: positioned after an element, expect `,` plus
another string element, or the closing `]`. -/
def loadsArrRest (acc : List String) (l : List Char) :
    Option (List String × List Char) :=
  match hd : dropWs l with
  | [] => none
  | c :: r =>
    if c = ']' then some (acc.reverse, r)
    else if c = ',' then
      match hs : loadsStr (dropWs r) with
      | some (v, r2) => loadsArrRest (v :: acc) r2
      | none => none
    else none
termination_by l.length
decreasing_by
  simp_wf
  have h1 := loadsStr_length _ _ _ hs
  have h2 := dropWs_length l
  have h3 := dropWs_length r
  rw [hd] at h2
  simp only [List.length_cons] at h2
  omega

/-- `json.loads` of an array of strings (opening `[` expected first). -/
def loadsArr (l : List Char) : Option (List String × List Char) :=
  match l with
  | [] => none
  | c :: r =>
    if c = '[' then
      match dropWs r with
      | [] => none
      | c2 :: r2 =>
        if c2 = ']' then some ([], r2)
        else
          match loadsStr (c2 :: r2) with
          | some (v, r3) => loadsArrRest [v] r3
          | none => none
    else none

theorem loadsArrRest_unfold (acc : List String) (l : List Char) :
    loadsArrRest acc l =
      match dropWs l with
      | [] => none
      | c :: r =>
        if c = ']' then some (acc.reverse, r)
        else if c = ',' then
          match loadsStr (dropWs r) with
          | some (v, r2) => loadsArrRest (v :: acc) r2
          | none => none
        else none := by
  rw [loadsArrRest.eq_def]
  rcases hdrop : dropWs l with - | ⟨c, r⟩
  · rfl
  · rcases hs : loadsStr (dropWs r) with - | ⟨v, r2⟩
    · simp only [hs]
      split_ifs <;> try rfl
      split
      · rename_i v2 r3 heq
        rw [hs] at heq
        cases heq
      · rfl
    · simp only [hs]
      split_ifs <;> try rfl
      split
      · rename_i v2 r3 heq
        rw [hs] at heq
        injection heq with heq2
        injection heq2 with hv hr
        subst hv
        subst hr
        rfl
      · rename_i heq
        rw [hs] at heq
        cases heq

theorem loadsArrRest_length_core :
    ∀ (N : Nat) (l : List Char) (acc vs : List String) (r : List Char),
      l.length ≤ N → loadsArrRest acc l = some (vs, r) → r.length < l.length := by
  intro N
  induction N with
  | zero =>
    intro l acc vs r hl h
    have hnil : l = [] := List.eq_nil_of_length_eq_zero (Nat.le_zero.mp hl)
    subst hnil
    rw [loadsArrRest.eq_def] at h
    simp [dropWs] at h
  | succ N ih =>
    intro l acc vs r hl h
    rw [loadsArrRest.eq_def] at h
    split at h
    · simp at h
    · rename_i c r1 hdrop
      have h2 := dropWs_length l
      rw [hdrop] at h2
      simp only [List.length_cons] at h2
      split_ifs at h
      · simp only [Option.some.injEq, Prod.mk.injEq] at h
        obtain ⟨-, rfl⟩ := h
        omega
      · split at h
        · rename_i v r2 hs
          have h1 := loadsStr_length _ _ _ hs
          have h3 := dropWs_length r1
          have h4 := ih r2 (v :: acc) vs r (by omega) h
          omega
        · simp at h

theorem loadsArrRest_length (l : List Char) (acc vs : List String)
    (r : List Char) (h : loadsArrRest acc l = some (vs, r)) :
    r.length < l.length :=
  loadsArrRest_length_core l.length l acc vs r (Nat.le_refl _) h

theorem loadsArr_length (l : List Char) (vs : List String) (r : List Char)
    (h : loadsArr l = some (vs, r)) : r.length < l.length := by
  rw [loadsArr.eq_def] at h
  split at h
  · simp at h
  · rename_i c r1
    split_ifs at h
    split at h
    · simp at h
    · rename_i c2 r2 hdrop
      have h2 := dropWs_length r1
      rw [hdrop] at h2
      simp only [List.length_cons] at h2
      split_ifs at h
      · simp only [Option.some.injEq, Prod.mk.injEq] at h
        obtain ⟨-, rfl⟩ := h
        simp only [List.length_cons]
        omega
      · split at h
        · rename_i v r3 hs
          have h1 := loadsStr_length _ _ _ hs
          simp only [List.length_cons] at h1 ⊢
          have h4 := loadsArrRest_length r3 [v] vs r h
          omega
        · simp at h

theorem dropWs_dumpsStr (v : String) (x : List Char) :
    dropWs (dumpsStr v ++ x) = dumpsStr v ++ x := by
  rw [dumpsStr, List.cons_append]
  exact dropWs_cons_not _ _ (by decide)

theorem loadsArrRest_flat (items : List String) :
    ∀ (acc : List String) (rest : List Char),
      loadsArrRest acc
        (items.flatMap (fun w => ',' :: ' ' :: dumpsStr w) ++ ']' :: rest) =
        some (acc.reverse ++ items, rest) := by
  induction items with
  | nil =>
    intro acc rest
    rw [loadsArrRest_unfold]
    simp only [List.flatMap_nil, List.nil_append]
    rw [dropWs_cons_not _ _ (by decide)]
    simp
  | cons v tl ih =>
    intro acc rest
    rw [loadsArrRest_unfold]
    simp only [List.flatMap_cons, List.cons_append, List.append_assoc]
    rw [dropWs_cons_not _ _ (by decide)]
    dsimp only
    rw [if_neg (by decide), if_pos rfl, dropWs_cons_ws _ _ (by decide),
      dropWs_dumpsStr, loadsStr_dumpsStr]
    dsimp only
    rw [ih]
    simp

/-- The array codec round-trip. -/
theorem loadsArr_dumpsArr (vs : List String) (rest : List Char) :
    loadsArr (dumpsArr vs ++ rest) = some (vs, rest) := by
  match vs with
  | [] =>
    rw [dumpsArr, loadsArr.eq_def]
    simp only [List.cons_append, List.singleton_append]
    rw [dropWs_cons_not _ _ (by decide)]
    simp
  | v :: tl =>
    rw [dumpsArr, loadsArr.eq_def]
    simp only [List.cons_append, List.append_assoc, List.singleton_append,
      List.nil_append, if_true]
    rw [dropWs_dumpsStr, dumpsStr, List.cons_append]
    dsimp only
    rw [if_neg (by decide), ← List.cons_append, ← dumpsStr, loadsStr_dumpsStr]
    dsimp only
    rw [loadsArrRest_flat]
    simp

/-- `json.dumps` of one catalog member (default key separator `": "`). -/
def dumpsMember (kv : String × List String) : List Char :=
  dumpsStr kv.1 ++ ':' :: ' ' :: dumpsArr kv.2

/-- `json.dumps` of a whole browser catalog object. -/
def dumpsCatalog (cat : List (String × List String)) : List Char :=
  match cat with
  | [] => ['{', '}']
  | kv :: tl =>
    '{' :: (dumpsMember kv ++
      tl.flatMap (fun kv2 => ',' :: ' ' :: dumpsMember kv2) ++ ['}'])

/-- `json.loads` of one catalog member: key string, colon, array value. -/
def loadsMember (l : List Char) : Option ((String × List String) × List Char) :=
  match loadsStr (dropWs l) with
  | some (k, r) =>
    match dropWs r with
    | [] => none
    | c :: r2 =>
      if c = ':' then
        match loadsArr (dropWs r2) with
        | some (vs, r3) => some ((k, vs), r3)
        | none => none
      else none
  | none => none

theorem loadsMember_length (l : List Char) (kv : String × List String)
    (r : List Char) (h : loadsMember l = some (kv, r)) : r.length < l.length := by
  rw [loadsMember.eq_def] at h
  split at h
  · rename_i k r1 hk
    have e1 := loadsStr_length _ _ _ hk
    have e2 := dropWs_length l
    split at h
    · simp at h
    · rename_i c r2 hdrop
      have e3 := dropWs_length r1
      rw [hdrop] at e3
      simp only [List.length_cons] at e3
      split_ifs at h
      split at h
      · rename_i vs r3 ha
        have e4 := loadsArr_length _ _ _ ha
        have e5 := dropWs_length r2
        simp only [Option.some.injEq, Prod.mk.injEq] at h
        obtain ⟨-, rfl⟩ := h
        omega
      · simp at h
  · simp at h

/-- `json.loads` catalog-object tail: after a member, expect `,` plus
another member or the closing brace. -/
def loadsObjRest (acc : List (String × List String)) (l : List Char) :
    Option (List (String × List String) × List Char) :=
  match hd : dropWs l with
  | [] => none
  | c :: r =>
    if c = '}' then some (acc.reverse, r)
    else if c = ',' then
      match hm : loadsMember r with
      | some (kv, r2) => loadsObjRest (kv :: acc) r2
      | none => none
    else none
termination_by l.length
decreasing_by
  simp_wf
  have h1 := loadsMember_length _ _ _ hm
  have h2 := dropWs_length l
  rw [hd] at h2
  simp only [List.length_cons] at h2
  omega

theorem loadsObjRest_unfold (acc : List (String × List String)) (l : List Char) :
    loadsObjRest acc l =
      match dropWs l with
      | [] => none
      | c :: r =>
        if c = '}' then some (acc.reverse, r)
        else if c = ',' then
          match loadsMember r with
          | some (kv, r2) => loadsObjRest (kv :: acc) r2
          | none => none
        else none := by
  rw [loadsObjRest.eq_def]
  rcases hdrop : dropWs l with - | ⟨c, r⟩
  · rfl
  · rcases hm : loadsMember r with - | ⟨kv, r2⟩
    · simp only [hm]
      split_ifs <;> try rfl
      split
      · rename_i kv2 r3 heq
        rw [hm] at heq
        cases heq
      · rfl
    · simp only [hm]
      split_ifs <;> try rfl
      split
      · rename_i kv2 r3 heq
        rw [hm] at heq
        injection heq with heq2
        injection heq2 with hv hr
        subst hv
        subst hr
        rfl
      · rename_i heq
        rw [hm] at heq
        cases heq

/-- `json.loads` of a browser-catalog object (opening `{` expected). -/
def loadsCatObj (l : List Char) :
    Option (List (String × List String) × List Char) :=
  match l with
  | [] => none
  | c :: r =>
    if c = '{' then
      match dropWs r with
      | [] => none
      | c2 :: r2 =>
        if c2 = '}' then some ([], r2)
        else
          match loadsMember r with
          | some (kv, r3) => loadsObjRest [kv] r3
          | none => none
    else none

theorem dropWs_dumpsArr (vs : List String) (x : List Char) :
    dropWs (dumpsArr vs ++ x) = dumpsArr vs ++ x := by
  match vs with
  | [] =>
    rw [dumpsArr]
    exact dropWs_cons_not _ _ (by decide)
  | v :: tl =>
    rw [dumpsArr, List.cons_append]
    exact dropWs_cons_not _ _ (by decide)

theorem loadsMember_dumpsMember (k : String) (vs : List String)
    (rest : List Char) :
    loadsMember (dumpsMember (k, vs) ++ rest) = some ((k, vs), rest) := by
  rw [loadsMember.eq_def, dumpsMember]
  simp only [List.append_assoc, List.cons_append]
  rw [dropWs_dumpsStr, loadsStr_dumpsStr]
  dsimp only
  rw [dropWs_cons_not _ _ (by decide)]
  dsimp only
  rw [if_pos rfl, dropWs_cons_ws _ _ (by decide), dropWs_dumpsArr,
    loadsArr_dumpsArr]

theorem dropWs_dumpsMember (kv : String × List String) (x : List Char) :
    dropWs (dumpsMember kv ++ x) = dumpsMember kv ++ x := by
  rw [dumpsMember, List.append_assoc, dropWs_dumpsStr, ← List.append_assoc]

theorem loadsObjRest_flat (items : List (String × List String)) :
    ∀ (acc : List (String × List String)) (rest : List Char),
      loadsObjRest acc
        (items.flatMap (fun kv => ',' :: ' ' :: dumpsMember kv) ++ '}' :: rest) =
        some (acc.reverse ++ items, rest) := by
  induction items with
  | nil =>
    intro acc rest
    rw [loadsObjRest_unfold]
    simp only [List.flatMap_nil, List.nil_append]
    rw [dropWs_cons_not _ _ (by decide)]
    simp
  | cons kv tl ih =>
    intro acc rest
    rw [loadsObjRest_unfold]
    simp only [List.flatMap_cons, List.cons_append, List.append_assoc]
    rw [dropWs_cons_not _ _ (by decide)]
    dsimp only
    rw [if_neg (by decide), if_pos rfl]
    have hm : loadsMember
        (' ' :: (dumpsMember kv ++
          (tl.flatMap (fun kv2 => ',' :: ' ' :: dumpsMember kv2) ++
            '}' :: rest))) =
        some (kv, tl.flatMap (fun kv2 => ',' :: ' ' :: dumpsMember kv2) ++
          '}' :: rest) := by
      rw [loadsMember.eq_def, dropWs_cons_ws _ _ (by decide),
        dropWs_dumpsMember]
      have := loadsMember_dumpsMember kv.1 kv.2
        (tl.flatMap (fun kv2 => ',' :: ' ' :: dumpsMember kv2) ++ '}' :: rest)
      rw [loadsMember.eq_def] at this
      exact this
    rw [hm]
    dsimp only
    rw [ih]
    simp

theorem loadsCatObj_nonempty (r r2 : List Char) (c2 : Char)
    (hdrop : dropWs r = c2 :: r2) (hne : ¬(c2 = '\x7d')) :
    loadsCatObj ('\x7b' :: r) =
      match loadsMember r with
      | some (kv, r3) => loadsObjRest [kv] r3
      | none => none := by
  rw [loadsCatObj.eq_def]
  dsimp only
  rw [if_pos rfl, hdrop]
  dsimp only
  rw [if_neg hne]

/-- The catalog-object codec round-trip. -/
theorem loadsCatObj_dumpsCatalog (cat : List (String × List String))
    (rest : List Char) :
    loadsCatObj (dumpsCatalog cat ++ rest) = some (cat, rest) := by
  match cat with
  | [] =>
    rw [dumpsCatalog, loadsCatObj.eq_def]
    simp only [List.cons_append, List.singleton_append]
    rw [dropWs_cons_not _ _ (by decide)]
    simp
  | kv :: tl =>
    obtain ⟨k, vs⟩ := kv
    have hd1 : dumpsCatalog ((k, vs) :: tl) ++ rest =
        '\x7b' :: (dumpsMember (k, vs) ++
          (tl.flatMap (fun kv2 => ',' :: ' ' :: dumpsMember kv2) ++
            '\x7d' :: rest)) := by
      rw [dumpsCatalog]
      simp [List.append_assoc]
    rw [hd1]
    have hL : dumpsMember (k, vs) ++
        (tl.flatMap (fun kv2 => ',' :: ' ' :: dumpsMember kv2) ++
          '\x7d' :: rest) =
        '"' :: ((k.data.flatMap escChar ++ ['"']) ++
          (':' :: ' ' :: dumpsArr vs ++
            (tl.flatMap (fun kv2 => ',' :: ' ' :: dumpsMember kv2) ++
              '\x7d' :: rest))) := by
      rw [dumpsMember, dumpsStr]
      simp [List.append_assoc]
    rw [loadsCatObj_nonempty _ _ '"' (by rw [hL] ; exact dropWs_cons_not _ _ (by decide)) (by decide)]
    rw [loadsMember_dumpsMember]
    dsimp only
    rw [loadsObjRest_flat]
    simp

/-- `json.dumps` of one string-valued member. -/
def dumpsSMember (kv : String × String) : List Char :=
  dumpsStr kv.1 ++ ':' :: ' ' :: dumpsStr kv.2

/-- `json.dumps` of a string-valued object (the `randomize` table). -/
def dumpsSObj (m : List (String × String)) : List Char :=
  match m with
  | [] => ['{', '}']
  | kv :: tl =>
    '{' :: (dumpsSMember kv ++
      tl.flatMap (fun kv2 => ',' :: ' ' :: dumpsSMember kv2) ++ ['}'])

/-- `json.loads` of one string-valued member. -/
def loadsSMember (l : List Char) : Option ((String × String) × List Char) :=
  match loadsStr (dropWs l) with
  | some (k, r) =>
    match dropWs r with
    | [] => none
    | c :: r2 =>
      if c = ':' then
        match loadsStr (dropWs r2) with
        | some (v, r3) => some ((k, v), r3)
        | none => none
      else none
  | none => none

theorem loadsSMember_length (l : List Char) (kv : String × String)
    (r : List Char) (h : loadsSMember l = some (kv, r)) : r.length < l.length := by
  rw [loadsSMember.eq_def] at h
  split at h
  · rename_i k r1 hk
    have e1 := loadsStr_length _ _ _ hk
    have e2 := dropWs_length l
    split at h
    · simp at h
    · rename_i c r2 hdrop
      have e3 := dropWs_length r1
      rw [hdrop] at e3
      simp only [List.length_cons] at e3
      split_ifs at h
      split at h
      · rename_i v r3 ha
        have e4 := loadsStr_length _ _ _ ha
        have e5 := dropWs_length r2
        simp only [Option.some.injEq, Prod.mk.injEq] at h
        obtain ⟨-, rfl⟩ := h
        omega
      · simp at h
  · simp at h

/-- `json.loads` string-object tail. -/
def loadsSObjRest (acc : List (String × String)) (l : List Char) :
    Option (List (String × String) × List Char) :=
  match hd : dropWs l with
  | [] => none
  | c :: r =>
    if c = '}' then some (acc.reverse, r)
    else if c = ',' then
      match hm : loadsSMember r with
      | some (kv, r2) => loadsSObjRest (kv :: acc) r2
      | none => none
    else none
termination_by l.length
decreasing_by
  simp_wf
  have h1 := loadsSMember_length _ _ _ hm
  have h2 := dropWs_length l
  rw [hd] at h2
  simp only [List.length_cons] at h2
  omega

theorem loadsSObjRest_unfold (acc : List (String × String)) (l : List Char) :
    loadsSObjRest acc l =
      match dropWs l with
      | [] => none
      | c :: r =>
        if c = '}' then some (acc.reverse, r)
        else if c = ',' then
          match loadsSMember r with
          | some (kv, r2) => loadsSObjRest (kv :: acc) r2
          | none => none
        else none := by
  rw [loadsSObjRest.eq_def]
  rcases hdrop : dropWs l with - | ⟨c, r⟩
  · rfl
  · rcases hm : loadsSMember r with - | ⟨kv, r2⟩
    · simp only [hm]
      split_ifs <;> try rfl
      split
      · rename_i kv2 r3 heq
        rw [hm] at heq
        cases heq
      · rfl
    · simp only [hm]
      split_ifs <;> try rfl
      split
      · rename_i kv2 r3 heq
        rw [hm] at heq
        injection heq with heq2
        injection heq2 with hv hr
        subst hv
        subst hr
        rfl
      · rename_i heq
        rw [hm] at heq
        cases heq

/-- `json.loads` of a string-valued object (opening `{` expected). -/
def loadsSObj (l : List Char) :
    Option (List (String × String) × List Char) :=
  match l with
  | [] => none
  | c :: r =>
    if c = '{' then
      match dropWs r with
      | [] => none
      | c2 :: r2 =>
        if c2 = '}' then some ([], r2)
        else
          match loadsSMember r with
          | some (kv, r3) => loadsSObjRest [kv] r3
          | none => none
    else none

theorem loadsSMember_dumpsSMember (k : String) (v : String)
    (rest : List Char) :
    loadsSMember (dumpsSMember (k, v) ++ rest) = some ((k, v), rest) := by
  rw [loadsSMember.eq_def, dumpsSMember]
  simp only [List.append_assoc, List.cons_append]
  rw [dropWs_dumpsStr, loadsStr_dumpsStr]
  dsimp only
  rw [dropWs_cons_not _ _ (by decide)]
  dsimp only
  rw [if_pos rfl, dropWs_cons_ws _ _ (by decide), dropWs_dumpsStr,
    loadsStr_dumpsStr]

theorem dropWs_dumpsSMember (kv : String × String) (x : List Char) :
    dropWs (dumpsSMember kv ++ x) = dumpsSMember kv ++ x := by
  rw [dumpsSMember, List.append_assoc, dropWs_dumpsStr, ← List.append_assoc]

theorem loadsSObjRest_flat (items : List (String × String)) :
    ∀ (acc : List (String × String)) (rest : List Char),
      loadsSObjRest acc
        (items.flatMap (fun kv => ',' :: ' ' :: dumpsSMember kv) ++
          '}' :: rest) =
        some (acc.reverse ++ items, rest) := by
  induction items with
  | nil =>
    intro acc rest
    rw [loadsSObjRest_unfold]
    simp only [List.flatMap_nil, List.nil_append]
    rw [dropWs_cons_not _ _ (by decide)]
    simp
  | cons kv tl ih =>
    intro acc rest
    rw [loadsSObjRest_unfold]
    simp only [List.flatMap_cons, List.cons_append, List.append_assoc]
    rw [dropWs_cons_not _ _ (by decide)]
    dsimp only
    rw [if_neg (by decide), if_pos rfl]
    have hm : loadsSMember
        (' ' :: (dumpsSMember kv ++
          (tl.flatMap (fun kv2 => ',' :: ' ' :: dumpsSMember kv2) ++
            '}' :: rest))) =
        some (kv, tl.flatMap (fun kv2 => ',' :: ' ' :: dumpsSMember kv2) ++
          '}' :: rest) := by
      rw [loadsSMember.eq_def, dropWs_cons_ws _ _ (by decide),
        dropWs_dumpsSMember]
      have := loadsSMember_dumpsSMember kv.1 kv.2
        (tl.flatMap (fun kv2 => ',' :: ' ' :: dumpsSMember kv2) ++ '}' :: rest)
      rw [loadsSMember.eq_def] at this
      exact this
    rw [hm]
    dsimp only
    rw [ih]
    simp

theorem loadsSObj_nonempty (r r2 : List Char) (c2 : Char)
    (hdrop : dropWs r = c2 :: r2) (hne : ¬(c2 = '\x7d')) :
    loadsSObj ('\x7b' :: r) =
      match loadsSMember r with
      | some (kv, r3) => loadsSObjRest [kv] r3
      | none => none := by
  rw [loadsSObj.eq_def]
  dsimp only
  rw [if_pos rfl, hdrop]
  dsimp only
  rw [if_neg hne]

/-- The string-object codec round-trip. -/
theorem loadsSObj_dumpsSObj (m : List (String × String)) (rest : List Char) :
    loadsSObj (dumpsSObj m ++ rest) = some (m, rest) := by
  match m with
  | [] =>
    rw [dumpsSObj, loadsSObj.eq_def]
    simp only [List.cons_append, List.singleton_append]
    rw [dropWs_cons_not _ _ (by decide)]
    simp
  | kv :: tl =>
    obtain ⟨k, v⟩ := kv
    have hd1 : dumpsSObj ((k, v) :: tl) ++ rest =
        '\x7b' :: (dumpsSMember (k, v) ++
          (tl.flatMap (fun kv2 => ',' :: ' ' :: dumpsSMember kv2) ++
            '\x7d' :: rest)) := by
      rw [dumpsSObj]
      simp [List.append_assoc]
    rw [hd1]
    have hL : dumpsSMember (k, v) ++
        (tl.flatMap (fun kv2 => ',' :: ' ' :: dumpsSMember kv2) ++
          '\x7d' :: rest) =
        '"' :: ((k.data.flatMap escChar ++ ['"']) ++
          (':' :: ' ' :: dumpsStr v ++
            (tl.flatMap (fun kv2 => ',' :: ' ' :: dumpsSMember kv2) ++
              '\x7d' :: rest))) := by
      rw [dumpsSMember, dumpsStr]
      simp [List.append_assoc]
    rw [loadsSObj_nonempty _ _ '"' (by rw [hL] ; exact dropWs_cons_not _ _ (by decide)) (by decide)]
    rw [loadsSMember_dumpsSMember]
    dsimp only
    rw [loadsSObjRest_flat]
    simp

theorem dropWs_dumpsCatalog (cat : List (String × List String)) (x : List Char) :
    dropWs (dumpsCatalog cat ++ x) = dumpsCatalog cat ++ x := by
  match cat with
  | [] =>
    rw [dumpsCatalog]
    exact dropWs_cons_not _ _ (by decide)
  | kv :: tl =>
    rw [dumpsCatalog, List.cons_append]
    exact dropWs_cons_not _ _ (by decide)

theorem dropWs_dumpsSObj (m : List (String × String)) (x : List Char) :
    dropWs (dumpsSObj m ++ x) = dumpsSObj m ++ x := by
  match m with
  | [] =>
    rw [dumpsSObj]
    exact dropWs_cons_not _ _ (by decide)
  | kv :: tl =>
    rw [dumpsSObj, List.cons_append]
    exact dropWs_cons_not _ _ (by decide)

/-- `json.dumps` of a whole catalog, as `user_agent.py`'s `dump` writes it. -/
def json_dumps_catalog (cat : List (String × List String)) : String :=
  String.mk (dumpsCatalog cat)

/-- `json.loads` of a cache file expected to hold a catalog: a single
object of arrays of strings, possibly surrounded by whitespace.  Any
other document makes `json.loads` (or the shape assumptions of the code
reading it) raise; both are modelled by `none`. -/
def json_loads_catalog (s : String) : Option (List (String × List String)) :=
  match loadsCatObj (dropWs s.data) with
  | some (cat, rest) => if dropWs rest = [] then some cat else none
  | none => none

/-- The full-document catalog round-trip:
`json.loads(json.dumps(catalog)) == catalog`. -/
theorem json_roundtrip_catalog (cat : List (String × List String)) :
    json_loads_catalog (json_dumps_catalog cat) = some cat := by
  rw [json_loads_catalog, json_dumps_catalog]
  rw [show (String.mk (dumpsCatalog cat)).data = dumpsCatalog cat ++ [] by simp]
  rw [dropWs_dumpsCatalog, loadsCatObj_dumpsCatalog]
  simp [dropWs]

/-- The strict selector's cache record: the harvested catalog plus the
flattened weighted-index table, exactly the dict
`\x7b"browsers": ..., "randomize": ...\x7d` that `load` returns. -/
structure UAData where
  browsers : List (String × List String)
  randomize : List (String × String)
deriving Repr, DecidableEq

/-- `json.dumps` of the cache record (keys in insertion order
`browsers`, `randomize`, as `load` builds the dict). -/
def dumpsData (d : UAData) : List Char :=
  '{' :: (dumpsStr "browsers" ++ ':' :: ' ' ::
    (dumpsCatalog d.browsers ++ ',' :: ' ' ::
      (dumpsStr "randomize" ++ ':' :: ' ' ::
        (dumpsSObj d.randomize ++ ['}']))))

def json_dumps_data (d : UAData) : String := String.mk (dumpsData d)

/-- `json.loads` of the cache record, combined with the two key lookups
`data["browsers"]` and `data["randomize"]` performed by the reader.  A
document of any other shape makes `json.loads` or those lookups raise;
both are modelled by `none`. -/
def json_loads_data (s : String) : Option UAData :=
  match dropWs s.data with
  | [] => none
  | c :: r =>
    if c = '{' then
      match loadsStr (dropWs r) with
      | some (k1, r1) =>
        if k1 = "browsers" then
          match dropWs r1 with
          | [] => none
          | c2 :: r2 =>
            if c2 = ':' then
              match loadsCatObj (dropWs r2) with
              | some (cat, r3) =>
                match dropWs r3 with
                | [] => none
                | c3 :: r4 =>
                  if c3 = ',' then
                    match loadsStr (dropWs r4) with
                    | some (k2, r5) =>
                      if k2 = "randomize" then
                        match dropWs r5 with
                        | [] => none
                        | c4 :: r6 =>
                          if c4 = ':' then
                            match loadsSObj (dropWs r6) with
                            | some (rand, r7) =>
                              match dropWs r7 with
                              | [] => none
                              | c5 :: r8 =>
                                if c5 = '}' then
                                  if dropWs r8 = [] then some ⟨cat, rand⟩
                                  else none
                                else none
                            | none => none
                          else none
                      else none
                    | none => none
                  else none
              | none => none
            else none
        else none
      | none => none
    else none

/-- The full-document cache-record round-trip. -/
theorem json_roundtrip_data (d : UAData) :
    json_loads_data (json_dumps_data d) = some d := by
  rw [json_loads_data, json_dumps_data]
  rw [show (String.mk (dumpsData d)).data = dumpsData d from rfl, dumpsData]
  rw [dropWs_cons_not _ _ (by decide)]
  dsimp only
  rw [if_pos rfl, dropWs_dumpsStr, loadsStr_dumpsStr]
  dsimp only
  rw [if_pos rfl, dropWs_cons_not _ _ (by decide)]
  dsimp only
  rw [if_pos rfl, dropWs_cons_ws _ _ (by decide), dropWs_dumpsCatalog,
    loadsCatObj_dumpsCatalog]
  dsimp only
  rw [dropWs_cons_not _ _ (by decide)]
  dsimp only
  rw [if_pos rfl, dropWs_cons_ws _ _ (by decide), dropWs_dumpsStr,
    loadsStr_dumpsStr]
  dsimp only
  rw [if_pos rfl, dropWs_cons_not _ _ (by decide)]
  dsimp only
  rw [if_pos rfl, dropWs_cons_ws _ _ (by decide), dropWs_dumpsSObj,
    loadsSObj_dumpsSObj]
  dsimp only
  rw [dropWs_cons_not _ _ (by decide)]
  dsimp only
  rw [if_pos rfl]
  simp [dropWs]

end PyJson

/-! # Part 4: `user_agent.py` — the lenient, asynchronous selector -/

namespace UA

def VERSION : String := "2.3.0"

def BACKUP_FILE : String := "fake_useragent.json"

/-- The fixed fallback constant `FIXED_UA`. -/
def FIXED_UA : String :=
  "Mozilla/5.0 (Windows NT 6.1; WOW64) AppleWebKit/537.36 (KHTML, like Gecko) Chrome/29.0.1547.62 Safari/537.36"

def BROWSERS : List String := ["chrome", "edge", "firefox", "safari", "opera"]

/-- `RANDOM_CUM_WEIGHTS`.  The name says cumulative weights, but `main`
passes this list to `random.choices` through the `weights=` keyword,
which treats it as relative weights. -/
def RANDOM_CUM_WEIGHTS : List Nat := [80, 86, 93, 97, 100]

/-- Running cumulative sums, as `random.choices` computes with
`itertools.accumulate(weights)` when given `weights=`. -/
def cumFrom (t : Nat) : List Nat → List Nat
  | [] => []
  | w :: ws => (t + w) :: cumFrom (t + w) ws

def cumSums (ws : List Nat) : List Nat := cumFrom 0 ws

/-- `bisect.bisect_right` over a sorted list: the number of leading
elements whose value is at most `x`. -/
def bisectRight (l : List Nat) (x : ℚ) : Nat :=
  (l.takeWhile (fun c => decide ((c : ℚ) ≤ x))).length

/-- `random.choices(population, weights=ws, k=1)[0]`: CPython builds the
cumulative weights, multiplies the unit draw `u` (one `random.random()`
value) by their total, and bisects with `hi = len(population) - 1`. -/
def pyChoicesWeighted (pop : List String) (ws : List Nat) (u : ℚ) : String :=
  let cum := cumSums ws
  let total : ℚ := (cum.getLastD 0 : ℚ)
  pop.getD (bisectRight (cum.take (pop.length - 1)) (u * total)) ""

/-- The browser draw
`random.choices(BROWSERS, weights=RANDOM_CUM_WEIGHTS, k=1)[0]`. -/
def randomBrowserDraw (u : ℚ) : String :=
  pyChoicesWeighted BROWSERS RANDOM_CUM_WEIGHTS u

/-- One attempt of `session.get` inside `parse`: success yields the page
text; `aiohttp.ServerTimeoutError` (carrying its message) is retried;
any other exception stops the loop at once. -/
inductive Attempt where
  | ok (html : String)
  | timeout (msg : String)
  | fail (msg : String)

/-- `user_agent.py` environment: the per-browser, per-iteration network
outcome, and the black-box `lxml` xpath extraction of the version text
nodes of a fetched page. -/
structure Env where
  attempts : String → Nat → Attempt
  extract : String → List String

/-- `call_on_error`: returns the incremented attempt counter (the
logging it performs is modelled by the fetch-event trace). -/
def call_on_error (attempt : Nat) : Nat := attempt + 1

/-- Observable events of one `parse` retry loop. -/
inductive FetchEv where
  | tried (iteration : Nat)
  | maxReached (msg : String)
  | failedOnce (msg : String)
deriving DecidableEq, Repr

/-- The `while True` retry loop of `parse`: iteration `i` issues one
`session.get`; on `ServerTimeoutError` the counter is bumped by
`call_on_error` (which logs, and logs the reached maximum at 3) and the
loop continues unless the counter hit 3; any other exception breaks at
once; success breaks with the page text.  The loop runs at most 3
iterations, so fuel 3 suffices; the fuel-0 value is unreachable. -/
def parseLoop (env : Env) (browser : String) :
    Nat → Nat → Nat → Option String × List FetchEv
  | 0, _, _ => (none, [])
  | fuel + 1, i, attempt =>
    match env.attempts browser i with
    | .ok html => (some html, [])
    | .timeout msg =>
      let attempt2 := call_on_error attempt
      if attempt2 = 3 then (none, [.tried i, .maxReached msg])
      else
        let step := parseLoop env browser fuel (i + 1) attempt2
        (step.1, .tried i :: step.2)
    | .fail msg => (none, [.failedOnce msg])

/-- `parse(browser, session)`: fetch with bounded retries, then extract
the version text nodes, truncated to `browser_num = 50`; zero extracted
entries are a failure (`(browser, None)`). -/
def parse (env : Env) (browser : String) :
    (String × Option (List String)) × List FetchEv :=
  let step := parseLoop env browser 3 1 0
  match step.1 with
  | none => ((browser, none), step.2)
  | some html =>
    let browser_num := 50
    let versions := (env.extract html).take browser_num
    if versions = [] then ((browser, none), step.2)
    else ((browser, some versions), step.2)

/-- The collection loop of `dump`: insert each `(browser, versions)`
result in list order, but `sys.exit(1)` (here `none`) at the first
result whose versions are `None`. -/
def collectAll :
    List (String × Option (List String)) → Option (List (String × List String))
  | [] => some []
  | (_, none) :: _ => none
  | (b, some vs) :: tl => (collectAll tl).map (fun r => (b, vs) :: r)

/-- One guarded cache write: `open(path, "wt")` plus `f.write`; an I/O
error makes `die` log and `sys.exit(1)`. -/
def writeStep (fs : FS) (path content : String) :
    Except Nat Unit × FS × List FsEv :=
  if fs.writeOk path then (Except.ok (), fs.put path content, [FsEv.wrote path])
  else (Except.error 1, fs, [])

/-- `dump(cache_path)`: harvest every browser in `BROWSERS`
(`asyncio.gather` keeps list order), abort with `sys.exit(1)` if the
result list is empty or any browser's versions are `None`, otherwise
`json.dumps` the catalog and write it, expanding the path and creating
the parent directory first when the path has one. -/
def dump (env : Env) (fs : FS) (cache_path : String)
    (expand : String → String) : Except Nat Unit × FS × List FsEv :=
  let results := BROWSERS.map (fun b => (parse env b).1)
  if results.isEmpty then (Except.error 1, fs, [])
  else
    match collectAll results with
    | none => (Except.error 1, fs, [])
    | some all_browsers =>
      let dumped := PyJson.json_dumps_catalog all_browsers
      let dir_name := pyDirname cache_path
      if dir_name ≠ "" ∧ dir_name ≠ "." then
        let cache_path2 := expand cache_path
        let dir_name2 := pyDirname cache_path2
        if fs.dirs dir_name2 then writeStep fs cache_path2 dumped
        else if fs.writeOk dir_name2 then
          writeStep
            { fs with dirs := fun p => if p = dir_name2 then true else fs.dirs p }
            cache_path2 dumped
        else (Except.error 1, fs, [])
      else writeStep fs cache_path dumped

/-- Outcome of the `remove` CLI operation: success, `die` (logged error
plus `sys.exit(1)`), or the `NameError` raised because the dir-missing
branch passes the undefined name `error` to `die`; uncaught (the
`__main__` block catches only `KeyboardInterrupt`), the `NameError`
also terminates the interpreter with exit status 1. -/
inductive RemoveOut where
  | removed (fs : FS)
  | died (code : Nat) (fs : FS)
  | nameError (fs : FS)

/-- Exit status of the process running `remove`. -/
def RemoveOut.exitStatus : RemoveOut → Nat
  | .removed _ => 0
  | .died c _ => c
  | .nameError _ => 1

/-- The filesystem after a `remove` call. -/
def RemoveOut.fs : RemoveOut → FS
  | .removed fs => fs
  | .died _ fs => fs
  | .nameError fs => fs

/-- `remove(cache_path)`: when the path has a real parent directory,
expand the path and check the directory exists, referencing the
undefined `error` (a `NameError`) when it does not; then `os.remove`,
dying on its `FileNotFoundError`/`OSError`. -/
def remove (fs : FS) (cache_path : String) (expand : String → String) :
    RemoveOut :=
  let dir_name := pyDirname cache_path
  if dir_name ≠ "" ∧ dir_name ≠ "." then
    let cache_path2 := expand cache_path
    let dir_name2 := pyDirname cache_path2
    if fs.dirs dir_name2 = false then RemoveOut.nameError fs
    else
      match fs.files cache_path2 with
      | none => RemoveOut.died 1 fs
      | some _ =>
        if fs.writeOk cache_path2 then RemoveOut.removed (fs.del cache_path2)
        else RemoveOut.died 1 fs
  else
    match fs.files cache_path with
    | none => RemoveOut.died 1 fs
    | some _ =>
      if fs.writeOk cache_path then RemoveOut.removed (fs.del cache_path)
      else RemoveOut.died 1 fs

/-- Python exceptions that can escape the selection path. -/
inductive PyExc where
  | jsonDecodeError
  | keyError (key : String)
  | indexError
deriving DecidableEq, Repr

/-- `load_and_random(browser, cache_path)`: only the `open`/`f.read()`
of the cache file is guarded by `try` (failure returns `FIXED_UA`); a
file that opens but holds anything other than a JSON object with the
`browser` key and a nonempty list raises out of the unguarded `else`
branch (`json.loads(data)[browser]`, then `random.choice`). -/
def load_and_random (fs : FS) (browser cache_path : String) (r : Nat) :
    Except PyExc String :=
  match fs.files cache_path with
  | none => Except.ok FIXED_UA
  | some data =>
    match PyJson.json_loads_catalog data with
    | none => Except.error PyExc.jsonDecodeError
    | some cat =>
      match cat.lookup browser with
      | none => Except.error (PyExc.keyError browser)
      | some versions =>
        match pyChoice versions r with
        | none => Except.error PyExc.indexError
        | some ua => Except.ok ua

/-- The browser-resolution step at the top of `main`: `None` triggers
the weighted draw; a string is stripped and lowercased; when the result
is not in `BROWSERS`, `new_browser` is drawn and logged but never
assigned back to `browser`, so the caller-supplied name survives. -/
def resolveBrowser (browser : Option String) (u : ℚ) : String :=
  match browser with
  | none => randomBrowserDraw u
  | some b =>
    let b2 := pyLower (pyStrip b)
    if b2 ∈ BROWSERS then b2
    else
      let _new_browser := randomBrowserDraw u
      b2

/-- `main(browser, use_cache, cache_path)`.  `u` models the unit draw
behind `random.choices`, `r` the `random.choice` index draw. -/
def main (env : Env) (fs : FS) (browser : Option String) (use_cache : Bool)
    (cache_path : String) (u : ℚ) (r : Nat) : Except PyExc String :=
  let browser2 := resolveBrowser browser u
  if use_cache = false then
    match (parse env browser2).1 with
    | (browser3, none) => load_and_random fs browser3 cache_path r
    | (_, some versions) =>
      match pyChoice versions r with
      | none => Except.error PyExc.indexError
      | some ua => Except.ok ua
  else load_and_random fs browser2 cache_path r

end UA

/-! # Part 5: `fake_useragent/utils.py` — the strict selector -/

namespace FUA

/-- `settings.SHORTCUTS`, the browser alias table (from the repository's
settings module). -/
def SHORTCUTS : List (String × String) :=
  [("internet explorer", "edge"), ("ie", "edge"), ("google", "chrome"),
    ("googlechrome", "chrome"), ("ff", "firefox")]

/-- `settings.BROWSERS_COUNT_LIMIT`. -/
def BROWSERS_COUNT_LIMIT : Nat := 50

/-- `settings.HTTP_TIMEOUT` (seconds; the timeout value itself plays no
role in the discrete control flow). -/
def HTTP_TIMEOUT : Nat := 10

/-- Modelled from the spec: `settings.HTTP_RETRIES`, the fixed retry
limit referenced by `get`, lives in the `fake_useragent` package's
settings module, which is not among the repository's source files; the
specification fixes the limit at 3 attempts. -/
def HTTP_RETRIES : Nat := 3

/-- One network error that `get` retries: `urllib.error.URLError` or
`OSError`, with its message. -/
inductive NetErr where
  | urlError (msg : String)
  | osError (msg : String)
deriving DecidableEq, Repr

/-- Result of `get`: the page body, or the `FakeUserAgentError`
("Maximum amount of retries reached") raised on the last attempt; the
raised error's implicit exception context (`__context__`) carries the
last underlying error, modelled by the payload.  `diverged` is the
fuel-out marker, unreachable from `get`. -/
inductive GetRes where
  | ok (body : String)
  | maxRetries (last : NetErr)
  | diverged
deriving DecidableEq, Repr

/-- The `while True` loop of `get`: each iteration increments the
attempt counter, then issues one `urlopen`; on `URLError`/`OSError` it
raises when the counter equals `HTTP_RETRIES`, else sleeps
`settings.HTTP_DELAY` and retries.  Returns the result and the list of
attempt numbers issued.  The counter reaches `HTTP_RETRIES` within
`HTTP_RETRIES` iterations, so that much fuel suffices. -/
def getLoop (oracle : Nat → Except NetErr String) :
    Nat → Nat → GetRes × List Nat
  | 0, _ => (.diverged, [])
  | fuel + 1, attempt =>
    let attempt2 := attempt + 1
    match oracle attempt2 with
    | .ok body => (.ok body, [attempt2])
    | .error e =>
      if attempt2 = HTTP_RETRIES then (.maxRetries e, [attempt2])
      else
        let step := getLoop oracle fuel attempt2
        (step.1, attempt2 :: step.2)

/-- `get(url)`: bounded-retry HTTP GET; `oracle n` is the outcome of
the `n`-th attempt against the requested URL. -/
def get (oracle : Nat → Except NetErr String) : GetRes × List Nat :=
  getLoop oracle HTTP_RETRIES 0

/-- Exceptions raised by the strict pipeline: `FakeUserAgentError` with
its message, or any other Python exception (`IndexError` from the
structural splits, I/O errors, `JSONDecodeError`, `KeyError`) — the
distinction beyond `FakeUserAgentError` is never observed, since
`load`'s `except Exception` catches them all alike. -/
inductive Exc where
  | fakeUAError (msg : String)
  | otherError
deriving DecidableEq, Repr

/-- `fake_useragent/utils.py` environment: per-browser per-attempt
network outcomes for the listing pages, the black-box regex extraction
(the `re.finditer` group-1 texts after the `<div id='liste'>` splits;
`none` models the `IndexError` raised when the page lacks the marker),
the cache server's parsed payload (`none` when unavailable or invalid),
and the `settings.DB` cache path (version- and tempdir-dependent). -/
structure Env where
  attempts : String → Nat → Except NetErr String
  pageMatches : String → Option (List String)
  cacheServer : Option PyJson.UAData
  DB : String

/-- The filtering loop of `get_browser_versions`: keep each match text
whose lowercase form does not contain `"more"`, stopping once
`BROWSERS_COUNT_LIMIT` entries are collected. -/
def collectVersions : List String → List String → List String
  | [], acc => acc
  | m :: ms, acc =>
    if pyIn "more" (pyLower m) then collectVersions ms acc
    else
      let acc2 := acc ++ [m]
      if acc2.length = BROWSERS_COUNT_LIMIT then acc2
      else collectVersions ms acc2

/-- `get_browser_versions(browser)`: fetch the listing page via `get`,
extract the anchor texts, filter pagination artifacts and truncate; an
empty remainder raises `FakeUserAgentError`. -/
def get_browser_versions (env : Env) (browser : String) :
    Except Exc (List String) :=
  match (get (env.attempts browser)).1 with
  | .ok html =>
    match env.pageMatches html with
    | none => Except.error Exc.otherError
    | some ms =>
      let browsers := collectVersions ms []
      if browsers = [] then
        Except.error (Exc.fakeUAError "No browsers version found")
      else Except.ok browsers
  | .maxRetries _ =>
    Except.error (Exc.fakeUAError "Maximum amount of retries reached")
  | .diverged => Except.error Exc.otherError

/-- The hardcoded `get_browsers` list inside `load` (the local name
shadows the function): browser names and market-share percent strings. -/
def loadBrowserList : List (String × String) :=
  [("Chrome", " 80.7"), ("Edge", " 5.6"), ("Firefox", " 6.1"),
    ("Safari", " 3.7"), ("Opera", " 2.4")]

/-- `int(float(percent) * 10)` for the five percent strings of
`loadBrowserList`, evaluated with CPython's IEEE-754 double semantics
(e.g. `float(" 80.7") * 10` rounds to exactly `807.0`, and
`float(" 5.6") * 10` rounds to exactly `56.0`). -/
def percentTimesTen (p : String) : Nat :=
  if p = " 80.7" then 807
  else if p = " 5.6" then 56
  else if p = " 6.1" then 61
  else if p = " 3.7" then 37
  else if p = " 2.4" then 24
  else 0

/-- The `try` block of `load`: harvest each browser in order, building
`browsers_dict` and extending `randomize_dict` with
`int(float(percent) * 10)` entries keyed by `str(len(randomize_dict))`;
the first exception aborts the whole block. -/
def loadTryGo (env : Env) : List (String × String) →
    List (String × List String) → List (String × String) →
    Except Exc PyJson.UAData
  | [], bd, rd => Except.ok ⟨bd, rd⟩
  | (name, percent) :: tl, bd, rd =>
    let browser := pyLower (pyStrip name)
    match get_browser_versions env browser with
    | Except.error e => Except.error e
    | Except.ok vs =>
      let bd2 := bd ++ [(browser, vs)]
      let rd2 := rd ++ (List.range (percentTimesTen percent)).map
        (fun k => (toString (rd.length + k), browser))
      loadTryGo env tl bd2 rd2

def loadTry (env : Env) : Except Exc PyJson.UAData :=
  loadTryGo env loadBrowserList [] []

/-- `load(use_cache_server=True)`: the harvest; on any exception, fall
back to `get_cache_server()` unless `use_cache_server` is false. -/
def load (env : Env) (use_cache_server : Bool) : Except Exc PyJson.UAData :=
  match loadTry env with
  | Except.ok d => Except.ok d
  | Except.error e =>
    if use_cache_server = false then Except.error e
    else
      match env.cacheServer with
      | some d => Except.ok d
      | none =>
        Except.error (Exc.fakeUAError "Can not load data from cache server")

/-- `write(path, data)`: `json.dumps` the record and write the file; an
I/O error (no `try` here) propagates. -/
def write (fs : FS) (path : String) (data : PyJson.UAData) :
    Except Exc (FS × List FsEv) :=
  if fs.writeOk path then
    Except.ok (fs.put path (PyJson.json_dumps_data data), [FsEv.wrote path])
  else Except.error Exc.otherError

/-- `read(path)`: read the file and `json.loads` it (the two key
lookups its callers immediately perform are folded into the document
shape, see `PyJson.json_loads_data`). -/
def read (fs : FS) (path : String) :
    Except Exc (PyJson.UAData × List FsEv) :=
  match fs.files path with
  | none => Except.error Exc.otherError
  | some s =>
    match PyJson.json_loads_data s with
    | none => Except.error Exc.otherError
    | some d => Except.ok (d, [FsEv.readFile path])

/-- The caller-supplied `browser` argument of `get_fake_useragent`:
Python `None`, a `str`, or a value of any other type. -/
inductive BrowserArg where
  | noneArg
  | strArg (s : String)
  | nonString
deriving DecidableEq, Repr

/-- A successful strict selection: the printed user-agent, the browser
key used for the final lookup, the filesystem afterwards, and the file
events in order. -/
structure Sel where
  ua : String
  browser : String
  fs : FS
  events : List FsEv

/-- The data-acquisition step of `get_fake_useragent` (its
`if use_cache` block): read the cache at `settings.DB` if the file
exists, otherwise populate it with `write(path, load())` and read it
back; with `use_cache=False`, call `load()` directly. -/
def gfuData (env : Env) (fs : FS) (use_cache : Bool) :
    Except Exc (PyJson.UAData × FS × List FsEv) :=
  if use_cache then
    let path := env.DB
    match fs.files path with
    | some _ =>
      match read fs path with
      | Except.ok (d, ev) => Except.ok (d, fs, ev)
      | Except.error e => Except.error e
    | none =>
      match load env true with
      | Except.error e => Except.error e
      | Except.ok d =>
        match write fs path d with
        | Except.error e => Except.error e
        | Except.ok (fs2, ev1) =>
          match read fs2 path with
          | Except.ok (d2, ev2) => Except.ok (d2, fs2, ev1 ++ ev2)
          | Except.error e => Except.error e
  else
    match load env true with
    | Except.ok d => Except.ok (d, fs, [])
    | Except.error e => Except.error e

/-- `get_fake_useragent(browser, use_cache)`: acquire the data record,
then resolve the browser argument — a non-`None` non-string raises at
the `isinstance` check; a string is stripped, lowercased and passed
through `SHORTCUTS`, and an unresolved name raises "This browser is not
supported."; `None` draws from the randomize table — and finally print
one random version string.  `r0` is the index draw behind
`random.choice(randomize)`, `r1` the one behind the final
`random.choice`. -/
def get_fake_useragent (env : Env) (fs : FS) (browser : BrowserArg)
    (use_cache : Bool) (r0 r1 : Nat) : Except Exc Sel :=
  match gfuData env fs use_cache with
  | Except.error e => Except.error e
  | Except.ok (data, fs2, evs) =>
    let browsers := data.browsers
    let randomize := data.randomize.map (fun kv => kv.2)
    match browser with
    | BrowserArg.nonString =>
      Except.error (Exc.fakeUAError "Please use a valid browser name.")
    | BrowserArg.strArg s =>
      let b1 := pyLower (pyStrip s)
      let b2 := (SHORTCUTS.lookup b1).getD b1
      if b2 ∈ browsers.map (fun kv => kv.1) then
        match browsers.lookup b2 with
        | none => Except.error Exc.otherError
        | some vs =>
          match pyChoice vs r1 with
          | none => Except.error Exc.otherError
          | some ua => Except.ok ⟨ua, b2, fs2, evs⟩
      else Except.error (Exc.fakeUAError "This browser is not supported.")
    | BrowserArg.noneArg =>
      match pyChoice randomize r0 with
      | none => Except.error Exc.otherError
      | some b =>
        match browsers.lookup b with
        | none => Except.error Exc.otherError
        | some vs =>
          match pyChoice vs r1 with
          | none => Except.error Exc.otherError
          | some ua => Except.ok ⟨ua, b, fs2, evs⟩

end FUA

/-! # Part 6: the claims -/

/-- C5: for every catalog produced by a successful harvest (indeed for
every catalog and every cache record at all), serializing with the Cache
Store's write and deserializing with read yields the original value: the
strict store's `write`/`read` round-trips the cache record through the
filesystem, and the `json.dumps`/`json.loads` pair used by
`user_agent.py`'s `dump` and `load_and_random` round-trips the catalog
(round-trip law). -/
theorem c5_cache_roundtrip (fs : FS) (path : String) (d : PyJson.UAData)
    (cat : List (String × List String)) (hw : fs.writeOk path = true) :
    (∃ fs2, FUA.write fs path d = Except.ok (fs2, [FsEv.wrote path]) ∧
      FUA.read fs2 path = Except.ok (d, [FsEv.readFile path])) ∧
    PyJson.json_loads_catalog (PyJson.json_dumps_catalog cat) = some cat := by
  constructor
  · refine ⟨fs.put path (PyJson.json_dumps_data d), ?_, ?_⟩
    · rw [FUA.write, if_pos hw]
    · rw [FUA.read]
      simp [FS.put, PyJson.json_roundtrip_data]
  · exact PyJson.json_roundtrip_catalog cat

/-- C5 witness: the round-trip evaluated at a concrete store, path,
record and catalog. -/
theorem c5_cache_roundtrip_witness :
    (∃ fs2,
      FUA.write ⟨fun _ => none, fun _ => false, fun _ => true⟩ "ua.json"
          ⟨[("chrome", ["uaC"])], [("0", "chrome")]⟩ =
        Except.ok (fs2, [FsEv.wrote "ua.json"]) ∧
      FUA.read fs2 "ua.json" =
        Except.ok (⟨[("chrome", ["uaC"])], [("0", "chrome")]⟩,
          [FsEv.readFile "ua.json"])) ∧
    PyJson.json_loads_catalog
        (PyJson.json_dumps_catalog [("chrome", ["uaC"])]) =
      some [("chrome", ["uaC"])] :=
  c5_cache_roundtrip _ "ua.json" _ _ rfl

/-- The closed form of the browser draw: `random.choices` with the
relative weights `[80, 86, 93, 97, 100]` cuts `[0,1)` at the cumulative
relative weights over their total 456. -/
theorem randomBrowserDraw_eq (u : ℚ) :
    UA.randomBrowserDraw u =
      if u * 456 < 80 then "chrome"
      else if u * 456 < 166 then "edge"
      else if u * 456 < 259 then "firefox"
      else if u * 456 < 356 then "safari"
      else "opera" := by
  rw [UA.randomBrowserDraw, UA.pyChoicesWeighted]
  simp only [UA.cumSums, UA.cumFrom, UA.RANDOM_CUM_WEIGHTS, UA.BROWSERS,
    UA.bisectRight]
  norm_num
  by_cases h1 : (80 : ℚ) ≤ u * 456
  · have h1x : ¬(u * 456 < 80) := by linarith
    by_cases h2 : (166 : ℚ) ≤ u * 456
    · have h2x : ¬(u * 456 < 166) := by linarith
      by_cases h3 : (259 : ℚ) ≤ u * 456
      · have h3x : ¬(u * 456 < 259) := by linarith
        by_cases h4 : (356 : ℚ) ≤ u * 456
        · have h4x : ¬(u * 456 < 356) := by linarith
          simp [List.takeWhile_cons, h1, h2, h3, h4, h1x, h2x, h3x, h4x]
        · have h4x : u * 456 < 356 := by linarith
          simp [List.takeWhile_cons, h1, h2, h3, h4, h1x, h2x, h3x, h4x]
      · have h3x : u * 456 < 259 := by linarith
        simp [List.takeWhile_cons, h1, h2, h3, h1x, h2x, h3x]
    · have h2x : u * 456 < 166 := by linarith
      simp [List.takeWhile_cons, h1, h2, h1x, h2x]
  · have h1x : u * 456 < 80 := by linarith
    simp [List.takeWhile_cons, h1, h1x]

/-- C3: the browser identifier is indeed resolved by a single weighted
random draw over the fixed five-browser set, but the probabilities do
not equal the configured market-share percentages: `main` passes
`RANDOM_CUM_WEIGHTS` through the `weights=` (relative-weight) keyword of
`random.choices`, so chrome is drawn exactly when the unit draw
satisfies `u * 456 < 80` (probability 80/456 ≈ 17.5%, not 80/100), and
the draw at `u = 1/5` — which a distribution giving chrome an 80% share
must map to chrome — yields "edge". -/
theorem c3_weighted_draw :
    (∀ u : ℚ, UA.randomBrowserDraw u = "chrome" ↔ u * 456 < 80) ∧
    UA.randomBrowserDraw (1 / 5) = "edge" ∧
    ((80 : ℚ) / 456 ≠ 80 / 100) := by
  refine ⟨?_, ?_, by norm_num⟩
  · intro u
    rw [randomBrowserDraw_eq]
    by_cases h1 : u * 456 < 80
    · simp [h1]
    · simp only [h1, if_false]
      constructor
      · intro h
        split_ifs at h <;> simp_all
      · intro h
        exact h.elim
  · rw [randomBrowserDraw_eq]
    norm_num

/-- C7: single-browser fetch retries.  In the strict fetcher `get`, a
transient error on attempt 1 is retried (attempt 2 can succeed), three
consecutive transient errors exhaust the limit `HTTP_RETRIES = 3` —
exactly attempts 1, 2, 3 are issued, never a fourth — and the raised
failure carries the last error; in the lenient fetcher `parse`, three
consecutive `ServerTimeoutError`s likewise end the loop after exactly
three attempts with the failure marker `(browser, None)`, the last
error being surfaced by the maximum-reached report. -/
theorem c7_retry_limit :
    (∀ (oracle : Nat → Except FUA.NetErr String) (e1 e2 e3 : FUA.NetErr),
      oracle 1 = Except.error e1 → oracle 2 = Except.error e2 →
      oracle 3 = Except.error e3 →
      FUA.get oracle = (FUA.GetRes.maxRetries e3, [1, 2, 3])) ∧
    (∀ (oracle : Nat → Except FUA.NetErr String) (e1 : FUA.NetErr)
        (body : String),
      oracle 1 = Except.error e1 → oracle 2 = Except.ok body →
      FUA.get oracle = (FUA.GetRes.ok body, [1, 2])) ∧
    (∀ (env : UA.Env) (b : String) (m : Nat → String),
      (∀ i, env.attempts b i = UA.Attempt.timeout (m i)) →
      UA.parse env b = ((b, none),
        [UA.FetchEv.tried 1, UA.FetchEv.tried 2, UA.FetchEv.tried 3,
          UA.FetchEv.maxReached (m 3)])) := by
  refine ⟨?_, ?_, ?_⟩
  · intro oracle e1 e2 e3 h1 h2 h3
    rw [FUA.get, FUA.HTTP_RETRIES]
    rw [FUA.getLoop]
    norm_num [h1]
    rw [FUA.HTTP_RETRIES, FUA.getLoop]
    norm_num [h2]
    rw [FUA.HTTP_RETRIES, FUA.getLoop]
    norm_num [h3, FUA.HTTP_RETRIES]
  · intro oracle e1 body h1 h2
    rw [FUA.get, FUA.HTTP_RETRIES]
    rw [FUA.getLoop]
    norm_num [h1]
    rw [FUA.HTTP_RETRIES, FUA.getLoop]
    norm_num [h2]
  · intro env b m h
    rw [UA.parse]
    rw [UA.parseLoop, h 1]
    norm_num [UA.call_on_error]
    rw [UA.parseLoop, h 2]
    norm_num [UA.call_on_error]
    rw [UA.parseLoop, h 3]
    norm_num [UA.call_on_error]

/-- C7 witness: the three retry facts evaluated at concrete oracles. -/
theorem c7_retry_limit_witness :
    FUA.get (fun _ => Except.error (FUA.NetErr.urlError "down")) =
      (FUA.GetRes.maxRetries (FUA.NetErr.urlError "down"), [1, 2, 3]) ∧
    FUA.get (fun n => if n = 1 then Except.error (FUA.NetErr.osError "reset")
        else Except.ok "page") =
      (FUA.GetRes.ok "page", [1, 2]) ∧
    UA.parse ⟨fun _ _ => UA.Attempt.timeout "slow", fun _ => []⟩ "chrome" =
      (("chrome", none),
        [UA.FetchEv.tried 1, UA.FetchEv.tried 2, UA.FetchEv.tried 3,
          UA.FetchEv.maxReached "slow"]) :=
  ⟨c7_retry_limit.1 _ _ _ _ rfl rfl rfl,
    c7_retry_limit.2.1 _ _ _ rfl rfl,
    c7_retry_limit.2.2 ⟨fun _ _ => UA.Attempt.timeout "slow", fun _ => []⟩
      "chrome" (fun _ => "slow") (fun _ => rfl)⟩

/-- A network environment whose extraction yields one pagination
artifact ("load more items") for every page. -/
def c8Env : UA.Env := ⟨fun _ _ => UA.Attempt.ok "page", fun _ => ["load more items"]⟩

/-- C8 counterexample: `user_agent.py`'s `parse` applies no "more"
filter, so a harvested version list can contain a pagination-artifact
entry — refuting the claim that no list returned by a successful fetch
within a harvest contains the marker. -/
theorem c8_counterexample :
    (UA.parse c8Env "chrome").1 = ("chrome", some ["load more items"]) ∧
    pyIn "more" (pyLower "load more items") = true := by
  constructor
  · rfl
  · decide

theorem collectVersions_spec (ms : List String) :
    ∀ acc : List String, acc.length < FUA.BROWSERS_COUNT_LIMIT →
      (∀ v ∈ acc, pyIn "more" (pyLower v) = false) →
      (FUA.collectVersions ms acc).length ≤ FUA.BROWSERS_COUNT_LIMIT ∧
      ∀ v ∈ FUA.collectVersions ms acc, pyIn "more" (pyLower v) = false := by
  induction ms with
  | nil =>
    intro acc hlen hmore
    rw [FUA.collectVersions]
    exact ⟨Nat.le_of_lt hlen, hmore⟩
  | cons m tl ih =>
    intro acc hlen hmore
    rw [FUA.collectVersions]
    dsimp only
    split_ifs with hm hfull
    · exact ih acc hlen hmore
    · refine ⟨by rw [hfull], ?_⟩
      intro v hv
      rcases List.mem_append.mp hv with hv | hv
      · exact hmore v hv
      · rw [List.mem_singleton.mp hv]
        simpa using hm
    · refine ih (acc ++ [m]) ?_ ?_
      · have : (acc ++ [m]).length = acc.length + 1 := by simp
        rw [this]
        rcases Nat.lt_or_ge (acc.length + 1) FUA.BROWSERS_COUNT_LIMIT with h | h
        · exact h
        · exfalso
          apply hfull
          have : (acc ++ [m]).length = acc.length + 1 := by simp
          omega
      · intro v hv
        rcases List.mem_append.mp hv with hv | hv
        · exact hmore v hv
        · rw [List.mem_singleton.mp hv]
          simpa using hm

/-- C8 amended: version lists from the strict fetcher
`get_browser_versions` have length at most `BROWSERS_COUNT_LIMIT = 50`
and contain no entry whose lowercase form contains "more"; version
lists from the lenient fetcher `parse` are truncated to at most 50
entries, but `parse` applies no "more" filter. -/
theorem c8_amended :
    (∀ (env : FUA.Env) (b : String) (vs : List String),
      FUA.get_browser_versions env b = Except.ok vs →
      vs.length ≤ 50 ∧ ∀ v ∈ vs, pyIn "more" (pyLower v) = false) ∧
    (∀ (env : UA.Env) (b b2 : String) (vs : List String)
        (tr : List UA.FetchEv),
      UA.parse env b = ((b2, some vs), tr) → vs.length ≤ 50) := by
  constructor
  · intro env b vs h
    rw [FUA.get_browser_versions] at h
    split at h
    · split at h
      · simp at h
      · rename_i ms hms
        dsimp only at h
        split_ifs at h with hempty
        simp only [Except.ok.injEq] at h
        subst h
        have := collectVersions_spec ms [] (by norm_num [FUA.BROWSERS_COUNT_LIMIT])
          (by intro v hv ; simp at hv)
        rw [FUA.BROWSERS_COUNT_LIMIT] at this
        exact this
    · simp at h
    · simp at h
  · intro env b b2 vs tr h
    rw [UA.parse] at h
    split at h
    · simp at h
    · rename_i html hhtml
      dsimp only at h
      split_ifs at h with hempty
      · simp at h
      · simp only [Prod.mk.injEq, Option.some.injEq] at h
        obtain ⟨⟨-, hvs⟩, -⟩ := h
        rw [← hvs]
        simpa using List.length_take_le 50 (env.extract html)

/-- C8 amended witness: both bounds evaluated at concrete environments:
a strict fetch whose page yields two version anchors around one "More"
artifact, and a lenient fetch yielding one version anchor. -/
theorem c8_amended_witness :
    ((["v1", "v2"] : List String).length ≤ 50 ∧
      ∀ v ∈ (["v1", "v2"] : List String), pyIn "more" (pyLower v) = false) ∧
    (["v1"] : List String).length ≤ 50 :=
  ⟨c8_amended.1 ⟨fun _ _ => Except.ok "page",
      fun _ => some ["v1", "an extra More link", "v2"], none, "db"⟩ "chrome"
      ["v1", "v2"] (by rfl),
    c8_amended.2 ⟨fun _ _ => UA.Attempt.ok "page", fun _ => ["v1"]⟩
      "chrome" "chrome" ["v1"] [] (by rfl)⟩

theorem collectAll_none (rs : List (String × Option (List String)))
    (h : ∃ r ∈ rs, r.2 = none) : UA.collectAll rs = none := by
  induction rs with
  | nil => simp at h
  | cons hd tl ih =>
    obtain ⟨r, hr, hnone⟩ := h
    rcases hd with ⟨b, vs⟩
    rcases List.mem_cons.mp hr with rfl | hmem
    · simp only at hnone
      subst hnone
      rw [UA.collectAll]
    · rcases vs with - | vs
      · rw [UA.collectAll]
      · rw [UA.collectAll, ih ⟨r, hmem, hnone⟩]
        rfl

/-- C6: a forced cache refresh in which any single browser's fetch
fails or yields zero entries (either way `parse` returns
`(browser, None)`) aborts the whole `dump`: the process exits with
status 1, no file event happens, and the filesystem — any pre-existing
cache file included — is left unchanged. -/
theorem c6_dump_aborts (env : UA.Env) (fs : FS) (path : String)
    (expand : String → String)
    (hfail : ∃ b ∈ UA.BROWSERS, ((UA.parse env b).1).2 = none) :
    UA.dump env fs path expand = (Except.error 1, fs, []) := by
  rw [UA.dump]
  have hne : (UA.BROWSERS.map (fun b => (UA.parse env b).1)).isEmpty = false := by
    rw [UA.BROWSERS]
    simp
  rw [if_neg (by rw [hne] ; simp)]
  have hcoll : UA.collectAll (UA.BROWSERS.map (fun b => (UA.parse env b).1)) =
      none := by
    apply collectAll_none
    obtain ⟨b, hb, hnone⟩ := hfail
    exact ⟨(UA.parse env b).1, List.mem_map.mpr ⟨b, hb, rfl⟩, hnone⟩
  rw [hcoll]

/-- C6 witness: `dump` evaluated where every fetch succeeds but the
extraction parses zero entries, with a pre-existing cache file. -/
theorem c6_dump_aborts_witness :
    UA.dump ⟨fun _ _ => UA.Attempt.ok "page", fun _ => []⟩
      ⟨fun p => if p = "old.json" then some "old" else none, fun _ => true,
        fun _ => true⟩
      "ua.json" id =
      (Except.error 1,
        ⟨fun p => if p = "old.json" then some "old" else none, fun _ => true,
          fun _ => true⟩, []) :=
  c6_dump_aborts _ _ _ _ ⟨"chrome", by decide, by rfl⟩

namespace UA

/-- The path `remove` finally passes to `os.remove`: the expanded path
when the cache path has a real parent directory, the raw path
otherwise. -/
def removeTarget (cache_path : String) (expand : String → String) : String :=
  if pyDirname cache_path ≠ "" ∧ pyDirname cache_path ≠ "." then
    expand cache_path
  else cache_path

end UA

/-- C9: `remove` deletes the cache file at the (expanded) path on
success; when the target directory does not exist, or the removal
itself errors (file absent or not removable), the operation fails and
the process terminates with non-zero status — through `die` for removal
errors, and through the uncaught `NameError` of the dir-missing branch —
leaving the filesystem unchanged. -/
theorem c9_remove (fs : FS) (path : String) (expand : String → String) :
    (∀ fs2, UA.remove fs path expand = UA.RemoveOut.removed fs2 →
      fs2.files (UA.removeTarget path expand) = none) ∧
    ((pyDirname path ≠ "" ∧ pyDirname path ≠ ".") →
      fs.dirs (pyDirname (expand path)) = false →
      (UA.remove fs path expand).exitStatus = 1 ∧
        (UA.remove fs path expand).fs = fs) ∧
    (fs.files (UA.removeTarget path expand) = none →
      (UA.remove fs path expand).exitStatus = 1 ∧
        (UA.remove fs path expand).fs = fs) := by
  refine ⟨?_, ?_, ?_⟩
  · intro fs2 h
    rw [UA.remove] at h
    rw [UA.removeTarget]
    by_cases hdir : pyDirname path ≠ "" ∧ pyDirname path ≠ "."
    · rw [if_pos hdir] at h
      rw [if_pos hdir]
      dsimp only at h
      by_cases hd : fs.dirs (pyDirname (expand path)) = false
      · rw [if_pos hd] at h
        simp at h
      · rw [if_neg hd] at h
        rcases hfe : fs.files (expand path) with - | content
        · rw [hfe] at h
          simp at h
        · rw [hfe] at h
          dsimp only at h
          by_cases hwr : fs.writeOk (expand path) = true
          · rw [if_pos hwr] at h
            injection h with h2
            subst h2
            simp [FS.del]
          · rw [if_neg hwr] at h
            simp at h
    · rw [if_neg hdir] at h
      rw [if_neg hdir]
      rcases hfe : fs.files path with - | content
      · rw [hfe] at h
        simp at h
      · rw [hfe] at h
        dsimp only at h
        by_cases hwr : fs.writeOk path = true
        · rw [if_pos hwr] at h
          injection h with h2
          subst h2
          simp [FS.del]
        · rw [if_neg hwr] at h
          simp at h
  · intro hdir hmiss
    rw [UA.remove, if_pos hdir]
    dsimp only
    rw [if_pos hmiss]
    exact ⟨rfl, rfl⟩
  · intro hfile
    rw [UA.removeTarget] at hfile
    rw [UA.remove]
    by_cases hdir : pyDirname path ≠ "" ∧ pyDirname path ≠ "."
    · rw [if_pos hdir] at hfile
      rw [if_pos hdir]
      dsimp only
      by_cases hd : fs.dirs (pyDirname (expand path)) = false
      · rw [if_pos hd]
        exact ⟨rfl, rfl⟩
      · rw [if_neg hd, hfile]
        exact ⟨rfl, rfl⟩
    · rw [if_neg hdir] at hfile
      rw [if_neg hdir, hfile]
      exact ⟨rfl, rfl⟩

/-- C9 witness: the three behaviors at concrete inputs — successful
removal deletes the file; a missing parent directory exits 1 leaving
the store intact; a missing file exits 1 leaving the store intact. -/
theorem c9_remove_witness :
    (∀ fs2, UA.remove
        ⟨fun p => if p = "d/ua.json" then some "x" else none,
          fun q => q = "d", fun _ => true⟩ "d/ua.json" id =
        UA.RemoveOut.removed fs2 →
      fs2.files (UA.removeTarget "d/ua.json" id) = none) ∧
    ((pyDirname "nodir/ua.json" ≠ "" ∧ pyDirname "nodir/ua.json" ≠ ".") →
      FS.dirs ⟨fun _ => none, fun _ => false, fun _ => true⟩
          (pyDirname (id "nodir/ua.json")) = false →
      (UA.remove ⟨fun _ => none, fun _ => false, fun _ => true⟩
          "nodir/ua.json" id).exitStatus = 1 ∧
        (UA.remove ⟨fun _ => none, fun _ => false, fun _ => true⟩
            "nodir/ua.json" id).fs =
          ⟨fun _ => none, fun _ => false, fun _ => true⟩) ∧
    (FS.files ⟨fun _ => none, fun _ => true, fun _ => true⟩
        (UA.removeTarget "ua.json" id) = none →
      (UA.remove ⟨fun _ => none, fun _ => true, fun _ => true⟩
          "ua.json" id).exitStatus = 1 ∧
        (UA.remove ⟨fun _ => none, fun _ => true, fun _ => true⟩
            "ua.json" id).fs = ⟨fun _ => none, fun _ => true, fun _ => true⟩) :=
  ⟨(c9_remove _ _ _).1, (c9_remove _ _ _).2.1, (c9_remove _ _ _).2.2⟩

/-- A network environment in which every attempt times out, so every
harvest fails. -/
def c1Env : UA.Env := ⟨fun _ _ => UA.Attempt.timeout "timed out", fun _ => []⟩

/-- A filesystem whose cache file exists but holds text that is not
valid JSON. -/
def c1Fs : FS :=
  ⟨fun p => if p = "fake_useragent.json" then some "garbage" else none,
    fun _ => false, fun _ => true⟩

/-- C1 counterexample: in lenient mode with the live harvest failing
and the cache file present but corrupt (not valid serialized data),
`main` does not return `FIXED_UA` — the unguarded
`json.loads(data)[browser]` raises, and the exception propagates to the
caller, refuting the never-raises conjunct of the claim. -/
theorem c1_counterexample :
    UA.main c1Env c1Fs (some "chrome") false "fake_useragent.json" 0 0 =
      Except.error UA.PyExc.jsonDecodeError := by
  rfl

/-- C1 amended: in lenient (non-strict) mode, when the live harvest
fails and the cache file is absent or unreadable (its `open`/`read`
raises), `main` returns the fixed constant `FIXED_UA` and raises
nothing; if the cache file is readable but corrupt, the decode error
propagates instead (see the counterexample). -/
theorem c1_amended (env : UA.Env) (fs : FS) (browser : Option String)
    (cache_path : String) (u : ℚ) (r : Nat)
    (hharvest : ∀ b, ((UA.parse env b).1).2 = none)
    (hfile : fs.files cache_path = none) :
    UA.main env fs browser false cache_path u r = Except.ok UA.FIXED_UA := by
  rw [UA.main.eq_def]
  dsimp only
  rw [if_pos rfl]
  rcases hp : (UA.parse env (UA.resolveBrowser browser u)).1 with ⟨b3, opt⟩
  have hopt := hharvest (UA.resolveBrowser browser u)
  rw [hp] at hopt
  dsimp only at hopt
  subst hopt
  dsimp only
  rw [UA.load_and_random.eq_def, hfile]

/-- C1 amended witness: the fallback evaluated at the all-timeout
environment and an empty filesystem. -/
theorem c1_amended_witness :
    UA.main c1Env ⟨fun _ => none, fun _ => false, fun _ => true⟩
      (some "chrome") false "fake_useragent.json" 0 0 =
      Except.ok UA.FIXED_UA :=
  c1_amended c1Env _ (some "chrome") "fake_useragent.json" 0 0
    (fun _ => rfl) rfl

/-- The five-browser catalog used to exercise the unsupported-browser
paths. -/
def c4Cat : List (String × List String) :=
  [("chrome", ["uaC"]), ("edge", ["uaE"]), ("firefox", ["uaF"]),
    ("safari", ["uaS"]), ("opera", ["uaO"])]

/-- A filesystem whose lenient cache file holds exactly `c4Cat`. -/
def c4Fs : FS :=
  ⟨fun p => if p = "fake_useragent.json" then
      some (PyJson.json_dumps_catalog c4Cat) else none,
    fun _ => false, fun _ => true⟩

/-- A strict-selector environment whose cache file at `settings.DB`
holds `c4Cat` plus a one-entry randomize table. -/
def c4FsStrict : FS :=
  ⟨fun p => if p = "db.json" then
      some (PyJson.json_dumps_data ⟨c4Cat, [("0", "chrome")]⟩) else none,
    fun _ => false, fun _ => true⟩

def c4EnvStrict : FUA.Env :=
  ⟨fun _ _ => Except.error (FUA.NetErr.urlError "offline"), fun _ => none,
    none, "db.json"⟩

/-- Reading an existing, well-formed cache in the strict selector:
`gfuData` with `use_cache=True` and the file present reads it once. -/
theorem gfuData_cached (env : FUA.Env) (fs : FS) (d : PyJson.UAData)
    (hfile : fs.files env.DB = some (PyJson.json_dumps_data d)) :
    FUA.gfuData env fs true = Except.ok (d, fs, [FsEv.readFile env.DB]) := by
  rw [FUA.gfuData]
  dsimp only
  rw [hfile]
  dsimp only
  rw [FUA.read.eq_def, hfile]
  dsimp only
  rw [PyJson.json_roundtrip_data]
  rfl

/-- C4 evaluation: the strict selector raises the unsupported-browser
error for "netscape" as claimed; but the lenient selector, instead of
proceeding with the randomly drawn substitute, keeps the unresolved
name and uses it for the version-list lookup — the call raises
`KeyError("netscape")` against a cache containing every canonical
browser, contradicting the claim (and the code's own
`Randomized "new_browser"` log message). -/
theorem c4_unresolved_name_used :
    UA.main ⟨fun _ _ => UA.Attempt.timeout "t", fun _ => []⟩ c4Fs
        (some "netscape") true "fake_useragent.json" 0 0 =
      Except.error (UA.PyExc.keyError "netscape") ∧
    FUA.get_fake_useragent c4EnvStrict c4FsStrict
        (FUA.BrowserArg.strArg "netscape") true 0 0 =
      Except.error (FUA.Exc.fakeUAError "This browser is not supported.") := by
  constructor
  · rw [UA.main.eq_def]
    dsimp only
    rw [show UA.resolveBrowser (some "netscape") (0 : ℚ) = "netscape" from rfl]
    rw [if_neg (by decide), UA.load_and_random.eq_def]
    rw [show c4Fs.files "fake_useragent.json" =
      some (PyJson.json_dumps_catalog c4Cat) from rfl]
    dsimp only
    rw [PyJson.json_roundtrip_catalog]
    rfl
  · rw [FUA.get_fake_useragent,
      gfuData_cached c4EnvStrict c4FsStrict ⟨c4Cat, [("0", "chrome")]⟩ rfl]
    rfl

/-- C10: a strict-selection call whose browser argument is neither
`None` nor a string raises `FakeUserAgentError` ("Please use a valid
browser name.") and produces no user-agent — no name resolution and no
random pick is attempted — whenever the data-acquisition step itself
returns (the argument check sits right after it). -/
theorem c10_nonstring_raises (env : FUA.Env) (fs : FS) (uc : Bool)
    (r0 r1 : Nat) (d : PyJson.UAData) (fs2 : FS) (evs : List FsEv)
    (hdata : FUA.gfuData env fs uc = Except.ok (d, fs2, evs)) :
    FUA.get_fake_useragent env fs FUA.BrowserArg.nonString uc r0 r1 =
      Except.error (FUA.Exc.fakeUAError "Please use a valid browser name.") := by
  rw [FUA.get_fake_useragent, hdata]

/-- C10 witness: the non-string rejection evaluated against a concrete
populated cache. -/
theorem c10_nonstring_raises_witness :
    FUA.get_fake_useragent c4EnvStrict c4FsStrict FUA.BrowserArg.nonString
        true 0 0 =
      Except.error (FUA.Exc.fakeUAError "Please use a valid browser name.") :=
  c10_nonstring_raises c4EnvStrict c4FsStrict true 0 0
    ⟨c4Cat, [("0", "chrome")]⟩ c4FsStrict [FsEv.readFile "db.json"]
    (gfuData_cached c4EnvStrict c4FsStrict ⟨c4Cat, [("0", "chrome")]⟩ rfl)

/-- Whether an `Except` is a success. -/
def exceptOk {ε α : Type} : Except ε α → Bool
  | Except.ok _ => true
  | Except.error _ => false

theorem exceptOk_iff {ε α : Type} (e : Except ε α) :
    exceptOk e = true ↔ ∃ v, e = Except.ok v := by
  cases e <;> simp [exceptOk]

namespace FUA

/-- The versions a successful `get_browser_versions` call yields for
`b` (meaningful when the call succeeds). -/
def versionsOf (env : Env) (b : String) : List String :=
  match get_browser_versions env b with
  | Except.ok vs => vs
  | Except.error _ => []

/-- The randomize table `load` builds: the five market-share-scaled
blocks of `int(float(percent) * 10)` entries each, keyed by the running
dict size. -/
def randomizeTable : List (String × String) :=
  (List.range 807).map (fun k => (toString k, "chrome")) ++
    ((List.range 56).map (fun k => (toString (807 + k), "edge")) ++
      ((List.range 61).map (fun k => (toString (863 + k), "firefox")) ++
        ((List.range 37).map (fun k => (toString (924 + k), "safari")) ++
          (List.range 24).map (fun k => (toString (961 + k), "opera")))))

/-- The cache record a fully successful harvest produces. -/
def harvestData (env : Env) : PyJson.UAData :=
  ⟨[("chrome", versionsOf env "chrome"), ("edge", versionsOf env "edge"),
    ("firefox", versionsOf env "firefox"),
    ("safari", versionsOf env "safari"), ("opera", versionsOf env "opera")],
    randomizeTable⟩

/-- Whether the live harvest succeeds for all five browsers. -/
def harvestOk (env : Env) : Bool :=
  ["chrome", "edge", "firefox", "safari", "opera"].all
    (fun b => exceptOk (get_browser_versions env b))

/-- Whether `get_fake_useragent`'s browser argument resolves (after the
type check, strip/lowercase and the alias table) to a canonical key. -/
def resolvesOk (arg : BrowserArg) : Bool :=
  match arg with
  | BrowserArg.noneArg => true
  | BrowserArg.strArg s =>
    ["chrome", "edge", "firefox", "safari", "opera"].contains
      ((SHORTCUTS.lookup (pyLower (pyStrip s))).getD (pyLower (pyStrip s)))
  | BrowserArg.nonString => false

theorem gbv_ok_nonempty (env : Env) (b : String) (vs : List String)
    (h : get_browser_versions env b = Except.ok vs) : vs ≠ [] := by
  rw [get_browser_versions] at h
  split at h
  · split at h
    · simp at h
    · dsimp only at h
      split_ifs at h with he
      simp only [Except.ok.injEq] at h
      subst h
      exact he
  · simp at h
  · simp at h

theorem loadTry_of_harvestOk (env : Env) (hok : harvestOk env = true) :
    loadTry env = Except.ok (harvestData env) := by
  simp only [harvestOk, List.all_cons, List.all_nil, Bool.and_eq_true,
    and_true] at hok
  obtain ⟨h1, h2, h3, h4, h5⟩ := hok
  obtain ⟨v1, hv1⟩ := (exceptOk_iff _).mp h1
  obtain ⟨v2, hv2⟩ := (exceptOk_iff _).mp h2
  obtain ⟨v3, hv3⟩ := (exceptOk_iff _).mp h3
  obtain ⟨v4, hv4⟩ := (exceptOk_iff _).mp h4
  obtain ⟨v5, hv5⟩ := (exceptOk_iff _).mp h5
  rw [loadTry, loadBrowserList]
  rw [loadTryGo, show pyLower (pyStrip "Chrome") = "chrome" from rfl, hv1]
  dsimp only
  rw [loadTryGo, show pyLower (pyStrip "Edge") = "edge" from rfl, hv2]
  dsimp only
  rw [loadTryGo, show pyLower (pyStrip "Firefox") = "firefox" from rfl, hv3]
  dsimp only
  rw [loadTryGo, show pyLower (pyStrip "Safari") = "safari" from rfl, hv4]
  dsimp only
  rw [loadTryGo, show pyLower (pyStrip "Opera") = "opera" from rfl, hv5]
  dsimp only
  rw [loadTryGo]
  rw [harvestData, randomizeTable]
  simp only [versionsOf, hv1, hv2, hv3, hv4, hv5, percentTimesTen]
  simp [List.length_append, List.length_map, List.length_range]

theorem lookup_of_mem_keys {β : Type} (l : List (String × β)) (a : String)
    (h : a ∈ l.map (fun kv => kv.1)) : ∃ b, l.lookup a = some b := by
  induction l with
  | nil => simp at h
  | cons kv tl ih =>
    rw [List.map_cons] at h
    rcases List.mem_cons.mp h with h | h
    · refine ⟨kv.2, ?_⟩
      rcases kv with ⟨k, b⟩
      simp only at h
      rw [List.lookup, h]
      simp
    · obtain ⟨b, hb⟩ := ih h
      rcases kv with ⟨k, b2⟩
      by_cases he : a = k
      · refine ⟨b2, ?_⟩
        rw [List.lookup, he]
        simp
      · refine ⟨b, ?_⟩
        rw [List.lookup]
        have : (a == k) = false := by simp [he]
        rw [this]
        exact hb

theorem mem_of_lookup {β : Type} (l : List (String × β)) (a : String) (b : β)
    (h : l.lookup a = some b) : (a, b) ∈ l := by
  induction l with
  | nil => simp at h
  | cons kv tl ih =>
    rcases kv with ⟨k, b2⟩
    rw [List.lookup] at h
    by_cases he : a = k
    · subst he
      simp only [beq_self_eq_true, Option.some.injEq] at h
      subst h
      exact List.mem_cons_self _ _
    · have : (a == k) = false := by simp [he]
      rw [this] at h
      exact List.mem_cons_of_mem _ (ih h)

theorem pyChoice_mem {α : Type} (l : List α) (r : Nat) (h : l ≠ []) :
    ∃ a, pyChoice l r = some a ∧ a ∈ l := by
  match l, h with
  | x :: xs, _ =>
    refine ⟨(x :: xs).getD (r % (x :: xs).length) x, rfl, ?_⟩
    have hlt : r % (x :: xs).length < (x :: xs).length :=
      Nat.mod_lt _ (by simp)
    rw [List.getD_eq_getElem _ _ hlt]
    exact List.getElem_mem hlt

theorem harvestData_val_ne_nil (env : Env) (hok : harvestOk env = true)
    (kv : String × List String) (h : kv ∈ (harvestData env).browsers) :
    kv.2 ≠ [] := by
  simp only [harvestOk, List.all_cons, List.all_nil, Bool.and_eq_true,
    and_true] at hok
  obtain ⟨h1, h2, h3, h4, h5⟩ := hok
  obtain ⟨v1, hv1⟩ := (exceptOk_iff _).mp h1
  obtain ⟨v2, hv2⟩ := (exceptOk_iff _).mp h2
  obtain ⟨v3, hv3⟩ := (exceptOk_iff _).mp h3
  obtain ⟨v4, hv4⟩ := (exceptOk_iff _).mp h4
  obtain ⟨v5, hv5⟩ := (exceptOk_iff _).mp h5
  rw [harvestData] at h
  simp only [List.mem_cons, List.not_mem_nil, or_false] at h
  rcases h with rfl | rfl | rfl | rfl | rfl
  · rw [versionsOf, hv1]
    exact gbv_ok_nonempty env _ v1 hv1
  · rw [versionsOf, hv2]
    exact gbv_ok_nonempty env _ v2 hv2
  · rw [versionsOf, hv3]
    exact gbv_ok_nonempty env _ v3 hv3
  · rw [versionsOf, hv4]
    exact gbv_ok_nonempty env _ v4 hv4
  · rw [versionsOf, hv5]
    exact gbv_ok_nonempty env _ v5 hv5

theorem randomizeTable_vals (kv : String × String)
    (h : kv ∈ randomizeTable) :
    kv.2 ∈ (["chrome", "edge", "firefox", "safari", "opera"] : List String) := by
  rw [randomizeTable] at h
  simp only [List.mem_append, List.mem_map, List.mem_range] at h
  rcases h with ⟨k, -, rfl⟩ | ⟨k, -, rfl⟩ | ⟨k, -, rfl⟩ | ⟨k, -, rfl⟩ |
    ⟨k, -, rfl⟩ <;> simp

theorem randomize_values_ne_nil (env : Env) :
    (harvestData env).randomize.map (fun kv => kv.2) ≠ [] := by
  rw [show (harvestData env).randomize = randomizeTable from rfl,
    randomizeTable]
  simp [List.range_eq_nil]

theorem gfuData_populate (env : Env) (fs : FS)
    (hfile : fs.files env.DB = none) (hw : fs.writeOk env.DB = true)
    (hload : load env true = Except.ok (harvestData env)) :
    gfuData env fs true = Except.ok (harvestData env,
      fs.put env.DB (PyJson.json_dumps_data (harvestData env)),
      [FsEv.wrote env.DB, FsEv.readFile env.DB]) := by
  rw [gfuData]
  dsimp only
  rw [hfile]
  dsimp only
  rw [hload]
  dsimp only
  rw [write, if_pos hw]
  dsimp only
  rw [read.eq_def]
  rw [show (fs.put env.DB (PyJson.json_dumps_data (harvestData env))).files
      env.DB = some (PyJson.json_dumps_data (harvestData env)) by
    simp [FS.put]]
  dsimp only
  rw [PyJson.json_roundtrip_data]
  rfl

end FUA

set_option maxRecDepth 8192 in
/-- The strict selector's lazy population: `get_fake_useragent` with
`use_cache=true` and no cache file performs a full harvest, persists it
(exactly one population write followed by one read of `settings.DB`,
and nothing else), and the returned user-agent belongs to the resolved
browser's version list from that freshly written cache — given that the
harvest succeeds, the store accepts the write, and the caller-supplied
argument resolves. -/
theorem gfu_lazy_population (env : FUA.Env) (fs : FS) (arg : FUA.BrowserArg)
    (r0 r1 : Nat) (hfile : fs.files env.DB = none)
    (hw : fs.writeOk env.DB = true) (hok : FUA.harvestOk env = true)
    (hres : FUA.resolvesOk arg = true) :
    ∃ (out : FUA.Sel) (vs : List String),
      FUA.get_fake_useragent env fs arg true r0 r1 = Except.ok out ∧
      out.events = [FsEv.wrote env.DB, FsEv.readFile env.DB] ∧
      out.fs.files env.DB =
        some (PyJson.json_dumps_data (FUA.harvestData env)) ∧
      (FUA.harvestData env).browsers.lookup out.browser = some vs ∧
      out.ua ∈ vs := by
  have hload : FUA.load env true = Except.ok (FUA.harvestData env) := by
    rw [FUA.load, FUA.loadTry_of_harvestOk env hok]
  have hdata := FUA.gfuData_populate env fs hfile hw hload
  rw [FUA.get_fake_useragent, hdata]
  dsimp only
  have hkeys : (FUA.harvestData env).browsers.map (fun kv => kv.1) =
      ["chrome", "edge", "firefox", "safari", "opera"] := rfl
  cases arg with
  | nonString => simp [FUA.resolvesOk] at hres
  | strArg s =>
    dsimp only
    rw [FUA.resolvesOk] at hres
    have hmem : ((FUA.SHORTCUTS.lookup (pyLower (pyStrip s))).getD
        (pyLower (pyStrip s))) ∈
        (FUA.harvestData env).browsers.map (fun kv => kv.1) := by
      rw [hkeys]
      exact List.mem_of_elem_eq_true hres
    rw [if_pos hmem]
    obtain ⟨vs, hvs⟩ := FUA.lookup_of_mem_keys _ _ hmem
    rw [hvs]
    dsimp only
    have hne : vs ≠ [] :=
      FUA.harvestData_val_ne_nil env hok _ (FUA.mem_of_lookup _ _ _ hvs)
    obtain ⟨ua, hua, huamem⟩ := FUA.pyChoice_mem vs r1 hne
    rw [hua]
    refine ⟨_, vs, rfl, rfl, by simp [FS.put], hvs, huamem⟩
  | noneArg =>
    dsimp only
    obtain ⟨b, hb, hbmem⟩ :=
      FUA.pyChoice_mem ((FUA.harvestData env).randomize.map (fun kv => kv.2)) r0
        (FUA.randomize_values_ne_nil env)
    rw [hb]
    dsimp only
    have hb5 : b ∈ (["chrome", "edge", "firefox", "safari", "opera"] :
        List String) := by
      obtain ⟨kv, hkv, hkvb⟩ := List.mem_map.mp hbmem
      rw [← hkvb]
      exact FUA.randomizeTable_vals kv hkv
    have hmem : b ∈ (FUA.harvestData env).browsers.map (fun kv => kv.1) := by
      rw [hkeys]
      exact hb5
    obtain ⟨vs, hvs⟩ := FUA.lookup_of_mem_keys _ _ hmem
    rw [hvs]
    dsimp only
    have hne : vs ≠ [] :=
      FUA.harvestData_val_ne_nil env hok _ (FUA.mem_of_lookup _ _ _ hvs)
    obtain ⟨ua, hua, huamem⟩ := FUA.pyChoice_mem vs r1 hne
    rw [hua]
    refine ⟨_, vs, rfl, rfl, by simp [FS.put], hvs, huamem⟩

/-- A strict-selector environment whose every fetch succeeds and whose
pages each yield one version anchor. -/
def c2Env : FUA.Env :=
  ⟨fun _ _ => Except.ok "page", fun _ => some ["v1"], none, "db.json"⟩

/-- An empty, writable filesystem. -/
def c2Fs : FS := ⟨fun _ => none, fun _ => true, fun _ => true⟩

/-- C2 counterexample: the claim also covers `user_agent.py`'s `main`
(lines 163-164), whose `use_cache=True` branch goes straight to
`load_and_random` — no harvest is started and nothing is ever written
(the branch has no call to `dump`; accordingly the embedding of `main`
neither takes a write capability nor returns a filesystem).  At this
concrete input — `use_cache=True`, cache file absent — the call returns
the fixed constant `FIXED_UA` instead of performing a population write,
a read, and a pick from the resolved browser's freshly cached version
list. -/
theorem c2_counterexample :
    UA.main c1Env ⟨fun _ => none, fun _ => false, fun _ => true⟩
        (some "chrome") true "fake_useragent.json" 0 0 =
      Except.ok UA.FIXED_UA := by
  rfl

/-- C2 amended: with `use_cache=true` and no cache file, the strict
selector `get_fake_useragent` performs a full harvest, persists it to
`settings.DB` (exactly one population write followed by one read), and
returns a member of the resolved browser's version list from that
cache (given the harvest succeeds, the store accepts the write, and the
argument resolves); the lenient selector `main`, by contrast, performs
no harvest and no population write on its `use_cache=True` path — it
reads the cache path directly via `load_and_random`, and with the file
absent returns the fixed constant `FIXED_UA`. -/
theorem c2_amended :
    (∀ (env : FUA.Env) (fs : FS) (arg : FUA.BrowserArg) (r0 r1 : Nat),
      fs.files env.DB = none → fs.writeOk env.DB = true →
      FUA.harvestOk env = true → FUA.resolvesOk arg = true →
      ∃ (out : FUA.Sel) (vs : List String),
        FUA.get_fake_useragent env fs arg true r0 r1 = Except.ok out ∧
        out.events = [FsEv.wrote env.DB, FsEv.readFile env.DB] ∧
        out.fs.files env.DB =
          some (PyJson.json_dumps_data (FUA.harvestData env)) ∧
        (FUA.harvestData env).browsers.lookup out.browser = some vs ∧
        out.ua ∈ vs) ∧
    (∀ (env : UA.Env) (fs : FS) (browser : Option String)
        (cache_path : String) (u : ℚ) (r : Nat),
      fs.files cache_path = none →
      UA.main env fs browser true cache_path u r = Except.ok UA.FIXED_UA) := by
  constructor
  · intro env fs arg r0 r1 hfile hw hok hres
    exact gfu_lazy_population env fs arg r0 r1 hfile hw hok hres
  · intro env fs browser cache_path u r hfile
    rw [UA.main.eq_def]
    dsimp only
    rw [if_neg (by decide)]
    rw [UA.load_and_random.eq_def, hfile]

/-- C2 amended witness: the strict selector's lazy population evaluated
at a concrete succeeding environment over an empty store, and the
lenient selector's write-free cached path evaluated at an empty
store. -/
theorem c2_amended_witness :
    (∃ (out : FUA.Sel) (vs : List String),
      FUA.get_fake_useragent c2Env c2Fs FUA.BrowserArg.noneArg true 0 0 =
        Except.ok out ∧
      out.events = [FsEv.wrote "db.json", FsEv.readFile "db.json"] ∧
      out.fs.files "db.json" =
        some (PyJson.json_dumps_data (FUA.harvestData c2Env)) ∧
      (FUA.harvestData c2Env).browsers.lookup out.browser = some vs ∧
      out.ua ∈ vs) ∧
    UA.main c1Env ⟨fun _ => none, fun _ => false, fun _ => true⟩ none true
      "fake_useragent.json" 0 0 = Except.ok UA.FIXED_UA :=
  ⟨c2_amended.1 c2Env c2Fs FUA.BrowserArg.noneArg 0 0 rfl rfl (by decide) rfl,
    c2_amended.2 c1Env ⟨fun _ => none, fun _ => false, fun _ => true⟩ none
      "fake_useragent.json" 0 0 rfl⟩
